import Mathlib

/-!
Shallow embedding of the Inspectra validation core: the company/phone/URL
normalizers (`CPC_Duplicate_Helper/utils.py`, `utils/email_utils.py`), the
email-permutation generator, the CPC checkers
(`CPC_Duplicate_Helper/cpc_checker.py`, `internal_checkers.py`), the
duplicate checkers (`duplicate_checker.py`, `internal_checkers.py`), the
internal phone checker, and the violation writer
(`utils/file_utils.py::disqualify_lead`).

Modelling conventions: Python strings are Lean `String`s (ASCII model of
`str.lower`/`str.isalnum`), Python dicts are association lists, Python sets
are insertion-ordered duplicate-free lists, and the worksheet is an
association list from (row, column) to cell text whose most recent write
shadows older ones.  The places where the code enumerates an unordered
Python set into a list (`list(set(...))` in the token-mode generator) are
modelled by an explicit enumeration parameter.
-/

/-- Python `str.strip()` on a character list: drop whitespace at both ends. -/
def stripL (l : List Char) : List Char :=
  ((l.dropWhile Char.isWhitespace).reverse.dropWhile Char.isWhitespace).reverse

/-- Python `str.lower()` (ASCII model). -/
def lowerL (l : List Char) : List Char := l.map Char.toLower

/-- `str.strip()` at the `String` level. -/
def pyStrip (s : String) : String := String.mk (stripL s.data)

/-- `str.lower()` at the `String` level. -/
def pyLower (s : String) : String := String.mk (lowerL s.data)

/-- Python `s.startswith(p)` on character lists. -/
def startsWithL (p l : List Char) : Bool := p.isPrefixOf l

/-- Python `s.endswith(p)` on character lists. -/
def endsWithL (p l : List Char) : Bool := p.reverse.isPrefixOf l.reverse

/-- Python `needle in hay` (substring test). -/
def containsSub (hay needle : List Char) : Bool :=
  needle.isPrefixOf hay ||
    match hay with
    | [] => false
    | _ :: t => containsSub t needle

/-- Python `sep.join(pieces)`. -/
def pyJoin (sep : String) : List String → String
  | [] => ""
  | [x] => x
  | x :: xs => x ++ sep ++ pyJoin sep xs

/-- Split a list around the first occurrence of `sep`
(`some (before, after)`), or `none` when `sep` does not occur. -/
def splitFirst (sep : List Char) : List Char → Option (List Char × List Char)
  | [] => if sep.isEmpty then some ([], []) else none
  | c :: t =>
    if sep.isPrefixOf (c :: t) then some ([], (c :: t).drop sep.length)
    else
      match splitFirst sep t with
      | some (b, a) => some (c :: b, a)
      | none => none

/-- Fuel-driven worker for `splitAllSep` (the fuel makes the recursion
structural so that concrete runs reduce in the kernel). -/
def splitAllSepFuel (sep : List Char) : Nat → List Char → List (List Char)
  | 0, l => [l]
  | Nat.succ fuel, l =>
    match splitFirst sep l with
    | none => [l]
    | some (b, a) => b :: splitAllSepFuel sep fuel a

/-- Python `s.split(sep)` for an explicit non-empty separator. -/
def splitAllSep (sep l : List Char) : List (List Char) :=
  splitAllSepFuel sep (l.length + 1) l

/-- The legal-entity suffix list of `utils.py::normalize_company`,
in source order. -/
def company_suffixes : List String :=
  [", inc.", " inc.", ", inc", " inc",
   ", llc", " llc", ", l.l.c.", " l.l.c.",
   ", ltd.", " ltd.", ", ltd", " ltd",
   ", limited", " limited",
   ", corp.", " corp.", ", corp", " corp",
   ", corporation", " corporation",
   ", co.", " co.", ", co", " co",
   ", company", " company",
   ", gmbh", " gmbh",
   ", s.a.", " s.a.", ", sa", " sa",
   ", plc", " plc", ", p.l.c.", " p.l.c.",
   ", llp", " llp", ", l.l.p.", " l.l.p.",
   ", lp", " lp", ", l.p.", " l.p.",
   ", ag", " ag", ", a.g.", " a.g.",
   ", nv", " nv", ", n.v.", " n.v.",
   ", bv", " bv", ", b.v.", " b.v."]

/-- The leading-article list of `normalize_company`, in source order. -/
def company_articles : List String := ["the ", "a "]

/-- The article-stripping loop of `normalize_company`: each article in list
order is stripped once if the current string starts with it. -/
def stripArticles (l : List Char) : List Char :=
  company_articles.foldl
    (fun acc p => if startsWithL p.data acc then acc.drop p.data.length else acc) l

/-- The suffix-stripping loop of `normalize_company`: the first matching
suffix is removed (then the result is stripped) and the loop breaks. -/
def stripLegalSuffix (l : List Char) : List Char :=
  match company_suffixes.find? (fun suf => endsWithL suf.data l) with
  | some suf => stripL (l.take (l.length - suf.data.length))
  | none => l

/-- Python `c.isalnum() or c.isspace()` (ASCII model). -/
def keepAlnumSpace (c : Char) : Bool := c.isAlphanum || c.isWhitespace

/-- Accumulator worker for `splitRuns`. -/
def runsAux (p : Char → Bool) : List Char → List Char → List (List Char)
  | [], acc => if acc.isEmpty then [] else [acc.reverse]
  | c :: t, acc =>
    if p c then
      if acc.isEmpty then runsAux p t [] else acc.reverse :: runsAux p t []
    else runsAux p t (c :: acc)

/-- Maximal runs of characters not satisfying `p` (Python `re.split` on a
`[...]+` separator class, with empty pieces dropped). -/
def splitRuns (p : Char → Bool) (l : List Char) : List (List Char) :=
  runsAux p l []

/-- Python `str.split()` with no separator: maximal runs of
non-whitespace characters. -/
def wordsL (l : List Char) : List (List Char) :=
  splitRuns Char.isWhitespace l

/-- `' '.join(words)` on character lists. -/
def joinSpaceL (ws : List (List Char)) : List Char := List.intercalate [' '] ws

/-- Python `' '.join(s.split())`: collapse whitespace runs. -/
def collapseWsL (l : List Char) : List Char := joinSpaceL (wordsL l)

/-- `CPC_Duplicate_Helper/utils.py::normalize_company`: lowercase and strip,
drop a leading article, drop the first matching legal suffix, keep only
alphanumeric/whitespace characters, collapse whitespace. -/
def normalize_company (name : String) : String :=
  if name = "" then ""
  else
    String.mk (collapseWsL
      ((stripLegalSuffix (stripArticles (lowerL (stripL name.data)))).filter
        keepAlnumSpace))

/-- Modelled from the spec: the source's `extract_root_domain`
(`utils/email_utils.py`) delegates to the external `tldextract` library,
which is not part of this repository.  Per the spec it returns the
public-suffix-aware registrable label (`maaden.com.sa` gives `maaden`),
`""` on blank input, and falls back to the lowercased input when
unparsable.  The public-suffix list is modelled by a closed set of
suffix labels. -/
def public_suffix_labels : List String :=
  ["com", "net", "org", "co", "uk", "sa", "io", "de", "fr", "au", "us",
   "edu", "gov", "biz", "info"]

/-- Drop trailing public-suffix labels from a dot-separated label list. -/
def dropPublicSuffixLabels (ls : List String) : List String :=
  ((ls.reverse).dropWhile (fun l => public_suffix_labels.contains l)).reverse

/-- See `dropPublicSuffixLabels`; the registrable label is the last
label left after removing the public suffix. -/
def extract_root_domain (domain : String) : String :=
  if domain = "" then ""
  else
    let ls := dropPublicSuffixLabels
      ((splitAllSep ['.'] (pyLower domain).data).map String.mk)
    let cand := ls.getLastD ""
    if cand = "" then pyLower domain else cand

/-- `internal_checkers.py::InternalPhoneChecker.normalize_phone`:
strip, then remove every non-digit character. -/
def normalize_phone (phone : String) : String :=
  if phone = "" then "" else String.mk ((stripL phone.data).filter Char.isDigit)

/-- A single apostrophe, used when building messages. -/
def sQuote : String := String.mk [Char.ofNat 39]

/-- `internal_checkers.py::normalize_linkedin_url`. -/
def normalize_linkedin_url (link : String) : String :=
  if link = "" then ""
  else
    let l := pyStrip link
    match splitFirst "/in/".data l.data with
    | none => pyLower l
    | some (_, after) =>
      let piece1 :=
        match splitFirst "/in/".data after with
        | some (b, _) => b
        | none => after
      let beforeQ :=
        match splitFirst ['?'] piece1 with
        | some (b, _) => b
        | none => piece1
      let profile := String.mk
        (((beforeQ.dropWhile (· = '/')).reverse.dropWhile (· = '/')).reverse)
      "https://www.linkedin.com/in/" ++ profile ++ "/"

example : normalize_company "Acme Inc" = "acme" := by decide
example : normalize_company "The  Big-Shop, LLC" = "bigshop" := by decide
example : extract_root_domain "maaden.com.sa" = "maaden" := by decide
example : extract_root_domain "acme.com" = "acme" := by decide
example : normalize_phone " +1 (234) 567-890 " = "1234567890" := by decide
example :
    normalize_linkedin_url "https://linkedin.com/in/jdoe?x=1" =
      "https://www.linkedin.com/in/jdoe/" := by decide

/-- The centralized title/rank/degree ignore list of
`utils/email_utils.py::IGNORE_SUFFIXES`, in source order. -/
def IGNORE_SUFFIXES : List String :=
  ["dr", "dr.", "mr", "mr.", "ms", "ms.", "mrs", "mrs.", "prof", "prof.",
   "sir", "hon", "hon.", "rev", "rev.", "fr", "fr.",
   "capt", "capt.", "captain", "col", "col.", "colonel", "maj", "maj.",
   "lt", "lt.", "lieutenant", "sgt", "sgt.", "sergeant", "pvt", "pvt.", "private",
   "general", "admiral", "commander", "corporal", "cpl", "cpl.",
   "minister", "archbishop", "rabbi", "brother", "sister", "father", "mother",
   "chancellor", "principal", "director", "president", "ceo",
   "cfo", "cto", "cmo", "vp", "svp", "evp", "chair", "chairman", "chairwoman",
   "ret", "ret.", "retired", "emeritus",
   "jr", "jr.", "sr", "sr.", "junior", "senior", "ii", "iii", "iv", "v", "vi",
   "2nd", "3rd", "4th", "5th",
   "mba", "phd", "msc", "ms", "bsc", "ba", "ma", "mtech", "btech", "jd", "ed.d",
   "cfa", "cpa", "acca", "ca", "cma", "cfp", "frms", "pmp", "sixsigma", "six",
   "sigma", "lssbb", "lssgb", "lean", "blackbelt", "rn", "md", "mbbs", "dds", "dmd",
   "do", "bpharm", "mph", "shrmp", "phr", "gphr", "sphr", "ccmp", "cpc", "cpcc",
   "aws", "gcp", "ccna", "mcsa", "ocp", "mcp", "comptia", "azure", "esq", "llb", "llm",
   "itil", "itl", "iti", "cissp", "ciso", "cism", "cris", "bms", "flmi", "flmi.",
   "hia", "hia.", "mhp", "mhp.", "acs", "acs.", "cpcu", "cpcu.", "csm", "csm.",
   "gaicd", "gaicd.", "cmaicd", "cmaicd.", "fcipd", "fcipd.", "cipd", "cipd.",
   "fcpd", "fcpd.", "fcp", "fcp.", "fca", "fca.", "fcma", "fcma.", "fcpa", "fcpa.",
   "fbcs", "fbcs."]

/-- The explicit German-character replacement table of
`utils/email_utils.py::strip_unicode`. -/
def germanFold (c : Char) : List Char :=
  if c = 'ü' || c = 'Ü' then "ue".data
  else if c = 'ö' || c = 'Ö' then "oe".data
  else if c = 'ä' || c = 'Ä' then "ae".data
  else if c = 'ß' || c = 'ẞ' then "ss".data
  else [c]

/-- `utils/email_utils.py::strip_unicode`: apply the German replacement
table, then fold to ASCII (the NFKD + encode(ascii, ignore) step is
modelled by dropping the remaining non-ASCII characters). -/
def strip_unicode (s : String) : String :=
  String.mk (((s.data.map germanFold).flatten).filter (fun c => c.toNat < 128))

/-- `utils/email_utils.py::extract_primary_first_name`: the maximal
non-empty prefix before an opening parenthesis, stripped; or the whole
name stripped when that prefix is empty. -/
def extract_primary_first_name (name : String) : String :=
  let pre := name.data.takeWhile (fun c => c ≠ '(')
  if pre.isEmpty then pyStrip name else String.mk (stripL pre)

/-- The character class `[a-z0-9._-]` kept by the token cleaners. -/
def isTokenChar (c : Char) : Bool :=
  (decide ('a' ≤ c) && decide (c ≤ 'z')) ||
    (decide ('0' ≤ c) && decide (c ≤ '9')) ||
    c == '.' || c == '_' || c == '-'

/-- The separator class of `tokenize_name`: whitespace, hyphen, period,
apostrophe, underscore. -/
def isNameSep (c : Char) : Bool :=
  c.isWhitespace || c == '-' || c == '.' || c == Char.ofNat 39 || c == '_'

/-- `utils/email_utils.py::tokenize_name` with the default separators. -/
def tokenize_name (name : String) : List String :=
  if name = "" then []
  else
    ((splitRuns isNameSep (stripL name.data)).map
      (fun tok => strip_unicode (String.mk ((lowerL tok).filter isTokenChar)))).filter
      (fun t => t ≠ "")

/-- Python `token.lower().rstrip('.')` membership test against
`IGNORE_SUFFIXES` as used by `restructure_compound_names`. -/
def rstripDots (s : String) : String :=
  String.mk ((s.data.reverse.dropWhile (· == '.')).reverse)

/-- See `rstripDots`. -/
def isIgnoredTitle (tok : String) : Bool :=
  IGNORE_SUFFIXES.contains (rstripDots (pyLower tok))

/-- Python `part.lower() in IGNORE_SUFFIXES` as used by the core
generator. -/
def isIgnored (tok : String) : Bool := IGNORE_SUFFIXES.contains (pyLower tok)

/-- Python `s.strip().split()`. -/
def pySplitWs (s : String) : List String := (wordsL (stripL s.data)).map String.mk

/-- `utils/email_utils.py::restructure_compound_names`. -/
def restructure_compound_names (first_name last_name : String) : String × String :=
  if first_name = "" ∨ last_name = "" then (first_name, last_name)
  else
    let first_tokens := pySplitWs first_name
    let last_tokens := pySplitWs last_name
    if 1 < first_tokens.length then
      match first_tokens.filter (fun t => !(isIgnoredTitle t)) with
      | [] => (pyStrip first_name, pyStrip last_name)
      | v0 :: extra => (v0, pyJoin " " (extra ++ last_tokens))
    else (pyStrip first_name, pyStrip last_name)

/-- Python `set.add`: sets are modelled as insertion-ordered,
duplicate-free lists. -/
def sInsert (s : List String) (x : String) : List String :=
  if s.contains x then s else s ++ [x]

/-- Python `set.update` with a list of candidates. -/
def sUpdate (s : List String) (xs : List String) : List String := xs.foldl sInsert s

/-- Canonical de-duplication of a list (first occurrence kept).  The
Python set it models is unordered, so every consumer that turns such a
set into a list goes through an explicit enumeration parameter. -/
def dedup (l : List String) : List String := sUpdate [] l

/-- Build `local@domain`. -/
def mkEmail (lcl domain : String) : String := lcl ++ "@" ++ domain

/-- Python `list.sort(key=len, reverse=True)`: stable descending-length
sort. -/
def sortByLenDesc (l : List String) : List String :=
  let maxLen := l.foldl (fun m s => max m s.length) 0
  ((List.range (maxLen + 1)).reverse).foldl
    (fun acc k => acc ++ l.filter (fun s => s.length == k)) []

/-- Input preparation of `_generate_patterns_core`: cleaned first-name
parts, title-filtered last-name parts, lowered domain; `none` models the
early `return set()` exits. -/
def _gen_inputs (first_name last_name domain : String) :
    Option (List String × List String × String) :=
  let raw_first := pyLower (pyStrip first_name)
  let first_cleaned := strip_unicode (extract_primary_first_name raw_first)
  let first_parts := (wordsL first_cleaned.data).map
    (fun fp => String.mk (fp.filter isTokenChar))
  let domain := pyLower (pyStrip domain)
  let raw_last_parts := pySplitWs (pyLower (pyStrip last_name))
  let last_parts0 := raw_last_parts.map
    (fun p => strip_unicode (String.mk (p.data.filter isTokenChar)))
  if first_parts.isEmpty || last_parts0.isEmpty || domain = "" then none
  else
    let last_parts := last_parts0.filter (fun p => !(isIgnored p))
    if last_parts.isEmpty then none
    else some (first_parts, last_parts, domain)

/-- `first_parts[0][0]` as used by the generator (empty when the source
would raise IndexError on an empty first part; the model yields the empty
initial there, generation failures being modelled abstractly for C9). -/
def _f_initial (first_parts : List String) : String :=
  match (first_parts.getD 0 "").data with
  | [] => ""
  | c :: _ => String.mk [c]

/-- `last_parts[0][0] if last_parts and last_parts[0] else ""`. -/
def _l_initial (last_parts : List String) : String :=
  match (last_parts.getD 0 "").data with
  | [] => ""
  | c :: _ => String.mk [c]

/-- The non-token (base) pattern set of `_generate_patterns_core`, built
exactly in source order. -/
def _base_permutations (first_parts last_parts : List String) (domain : String) :
    List String :=
  let l_full := String.join last_parts
  let f_full := String.join first_parts
  let f_initial := _f_initial first_parts
  let l_initial := _l_initial last_parts
  let last_word := last_parts.getLastD ""
  let perms : List String := []
  let perms := first_parts.foldl (fun acc f =>
    last_parts.foldl (fun acc l =>
      sUpdate acc
        [mkEmail (f ++ l) domain, mkEmail (f ++ "." ++ l) domain,
         mkEmail (f ++ "_" ++ l) domain, mkEmail (f ++ "-" ++ l) domain,
         mkEmail (l ++ f) domain, mkEmail (l ++ "." ++ f) domain,
         mkEmail (l ++ "_" ++ f) domain, mkEmail (l ++ "-" ++ f) domain]) acc)
    perms
  let perms := sUpdate perms
    [mkEmail (f_full ++ l_full) domain, mkEmail (f_full ++ "." ++ l_full) domain,
     mkEmail (f_full ++ "_" ++ l_full) domain, mkEmail (f_full ++ "-" ++ l_full) domain,
     mkEmail (l_full ++ f_full) domain, mkEmail (l_full ++ "." ++ f_full) domain,
     mkEmail (l_full ++ "_" ++ f_full) domain, mkEmail (l_full ++ "-" ++ f_full) domain,
     mkEmail f_full domain, mkEmail l_full domain,
     (if l_initial ≠ "" then mkEmail (f_full ++ l_initial) domain else ""),
     (if f_initial ≠ "" then mkEmail (l_full ++ f_initial) domain else ""),
     (if l_initial ≠ "" then mkEmail (f_full ++ "." ++ l_initial) domain else ""),
     (if f_initial ≠ "" then mkEmail (l_full ++ "." ++ f_initial) domain else ""),
     (if f_initial ≠ "" then mkEmail (f_initial ++ "." ++ l_full) domain else ""),
     (if l_initial ≠ "" then mkEmail (l_initial ++ "." ++ f_full) domain else ""),
     (if f_initial ≠ "" then mkEmail (f_initial ++ "_" ++ l_full) domain else ""),
     (if l_initial ≠ "" then mkEmail (l_initial ++ "_" ++ f_full) domain else ""),
     (if f_initial ≠ "" then mkEmail (f_initial ++ "-" ++ l_full) domain else ""),
     (if l_initial ≠ "" then mkEmail (l_initial ++ "-" ++ f_full) domain else ""),
     (if f_initial ≠ "" then mkEmail (f_initial ++ l_full) domain else ""),
     (if f_initial ≠ "" then mkEmail (l_full ++ f_initial) domain else "")]
  let perms :=
    if f_full ≠ "" then
      last_parts.foldl (fun acc lp =>
        match lp.data with
        | [] => acc
        | c :: _ =>
          let lpi := String.mk [c]
          sUpdate acc
            [mkEmail (f_full ++ lpi) domain, mkEmail (f_full ++ "_" ++ lpi) domain,
             mkEmail (f_full ++ "." ++ lpi) domain, mkEmail (f_full ++ "-" ++ lpi) domain])
        perms
    else perms
  let perms :=
    if l_full ≠ "" && f_initial ≠ "" then
      sUpdate perms
        [mkEmail (l_full ++ "_" ++ f_initial) domain,
         mkEmail (l_full ++ "." ++ f_initial) domain,
         mkEmail (l_full ++ "-" ++ f_initial) domain,
         mkEmail (l_full ++ f_initial) domain]
    else perms
  let perms :=
    if f_initial ≠ "" && l_full ≠ "" then
      sInsert perms (mkEmail (f_initial ++ l_full) domain)
    else perms
  let perms :=
    if l_initial ≠ "" && f_full ≠ "" then
      sUpdate (sInsert perms (mkEmail (l_initial ++ f_full) domain))
        [mkEmail (l_initial ++ "_" ++ f_full) domain,
         mkEmail (l_initial ++ "." ++ f_full) domain,
         mkEmail (l_initial ++ "-" ++ f_full) domain]
    else perms
  let perms :=
    if last_word ≠ "" then
      let perms :=
        if f_full ≠ "" then
          sUpdate perms
            [mkEmail (f_full ++ "." ++ last_word) domain,
             mkEmail (f_full ++ last_word) domain]
        else perms
      if f_initial ≠ "" then
        sUpdate perms
          [mkEmail (f_initial ++ "." ++ last_word) domain,
           mkEmail (f_initial ++ last_word) domain]
      else perms
    else perms
  let perms :=
    if f_full ≠ "" && l_initial ≠ "" then
      sInsert perms (mkEmail (f_full ++ "_" ++ l_initial) domain)
    else perms
  let perms :=
    if 1 < last_parts.length then
      let cl := String.join last_parts
      sUpdate perms
        [mkEmail (f_full ++ "." ++ cl) domain, mkEmail (f_full ++ cl) domain,
         mkEmail (f_full ++ "_" ++ cl) domain, mkEmail (f_full ++ "-" ++ cl) domain,
         mkEmail (cl ++ "." ++ f_full) domain, mkEmail (cl ++ f_full) domain,
         mkEmail (cl ++ "_" ++ f_full) domain, mkEmail (cl ++ "-" ++ f_full) domain,
         mkEmail cl domain,
         (if f_initial ≠ "" then mkEmail (f_initial ++ "." ++ cl) domain else ""),
         (if f_initial ≠ "" then mkEmail (f_initial ++ cl) domain else ""),
         (if f_initial ≠ "" then mkEmail (cl ++ f_initial) domain else ""),
         (if f_initial ≠ "" then mkEmail (cl ++ "." ++ f_initial) domain else ""),
         (if f_initial ≠ "" then mkEmail (cl ++ "_" ++ f_initial) domain else ""),
         (if f_initial ≠ "" then mkEmail (cl ++ "-" ++ f_initial) domain else "")]
    else perms
  let perms :=
    if 1 < first_parts.length then
      let perms := (List.range first_parts.length).foldl (fun acc i =>
        (List.range first_parts.length).foldl (fun acc j =>
          if i < j then
            let a := first_parts.getD i ""
            let b := first_parts.getD j ""
            sUpdate acc
              [mkEmail (a ++ "." ++ b) domain, mkEmail (a ++ "_" ++ b) domain,
               mkEmail (a ++ "-" ++ b) domain, mkEmail (a ++ b) domain]
          else acc) acc) perms
      first_parts.foldl (fun acc fp =>
        last_parts.foldl (fun acc lp =>
          sUpdate acc
            [mkEmail (fp ++ "." ++ lp) domain, mkEmail (fp ++ "_" ++ lp) domain,
             mkEmail (fp ++ "-" ++ lp) domain, mkEmail (fp ++ lp) domain]) acc)
        perms
    else perms
  perms

/-- The token-mode extension of `_generate_patterns_core`: tokenize both
names (plus the originals when restructuring changed them), de-duplicate
and enumerate (`enum` models the unordered `list(set(...))`), filter by
minimum length and the ignore list, sort stably by descending length, then
walk the tokens adding each one's unseen patterns up to the remaining
budget (`enum` again models `list(new_patterns)` before truncation). -/
def _token_phase (enum : List String → List String)
    (first_name last_name : String)
    (original_first_name original_last_name : Option String)
    (token_min_len row_budget : Nat)
    (first_parts : List String) (domain : String)
    (perms : List String) : List String :=
  let f_full := String.join first_parts
  let f_initial := _f_initial first_parts
  let last_tokens := tokenize_name last_name
  let first_tokens := tokenize_name first_name
  let first_tokens := first_tokens ++
    (match original_first_name with
     | some o => if o ≠ "" && o ≠ first_name then tokenize_name o else []
     | none => [])
  let last_tokens := last_tokens ++
    (match original_last_name with
     | some o => if o ≠ "" && o ≠ last_name then tokenize_name o else []
     | none => [])
  let all_tokens := enum (dedup (first_tokens ++ last_tokens))
  let valid_tokens := sortByLenDesc (all_tokens.filter
    (fun t => token_min_len ≤ t.length && !(isIgnored t)))
  let state := valid_tokens.foldl
    (fun (st : List String × Nat) token =>
      if row_budget ≤ st.2 then st
      else
        let pats : List String := []
        let pats := first_parts.foldl (fun acc f =>
          sUpdate acc
            [mkEmail (f ++ token) domain, mkEmail (f ++ "." ++ token) domain,
             mkEmail (f ++ "_" ++ token) domain, mkEmail (f ++ "-" ++ token) domain,
             mkEmail (token ++ f) domain, mkEmail (token ++ "." ++ f) domain,
             mkEmail (token ++ "_" ++ f) domain, mkEmail (token ++ "-" ++ f) domain])
          pats
        let pats := sUpdate pats
          [mkEmail (f_full ++ token) domain, mkEmail (f_full ++ "." ++ token) domain,
           mkEmail (f_full ++ "_" ++ token) domain, mkEmail (f_full ++ "-" ++ token) domain,
           mkEmail (token ++ f_full) domain, mkEmail (token ++ "." ++ f_full) domain,
           mkEmail (token ++ "_" ++ f_full) domain, mkEmail (token ++ "-" ++ f_full) domain,
           mkEmail token domain]
        let pats :=
          if f_initial ≠ "" then
            sUpdate pats
              [mkEmail (f_initial ++ "." ++ token) domain,
               mkEmail (f_initial ++ token) domain,
               mkEmail (token ++ f_initial) domain,
               mkEmail (token ++ "." ++ f_initial) domain,
               mkEmail (token ++ "_" ++ f_initial) domain,
               mkEmail (token ++ "-" ++ f_initial) domain]
          else pats
        let pats := valid_tokens.foldl (fun acc other =>
          if other ≠ token then
            sUpdate acc
              [mkEmail (token ++ "." ++ other) domain,
               mkEmail (token ++ "_" ++ other) domain,
               mkEmail (token ++ "-" ++ other) domain,
               mkEmail (token ++ other) domain]
          else acc) pats
        let newPats := enum (pats.filter
          (fun p => !(perms.contains p) && !(st.1.contains p)))
        let toAdd := newPats.take (row_budget - st.2)
        (sUpdate st.1 toAdd, st.2 + toAdd.length))
    ([], 0)
  state.1

/-- `utils/email_utils.py::_generate_patterns_core`.  `enum` models the
unspecified order in which Python enumerates an unordered set into a list
(the `list(set(first_tokens + last_tokens))` and
`list(new_patterns)[:budget_remaining]` sites); a reference run uses the
canonical insertion order (`idEnum`), and any permutation of it is an
equally admissible run. -/
def _generate_patterns_core (enum : List String → List String)
    (first_name last_name domain : String)
    (token_min_len row_budget : Nat) (enable_token_mode : Bool)
    (original_first_name original_last_name : Option String) : List String :=
  match _gen_inputs first_name last_name domain with
  | none => []
  | some q =>
    let perms := _base_permutations q.1 q.2.1 q.2.2
    if !enable_token_mode then perms.filter (fun p => p ≠ "")
    else
      (sUpdate perms
        (_token_phase enum first_name last_name original_first_name
          original_last_name token_min_len row_budget q.1 q.2.2 perms)).filter
        (fun p => p ≠ "")

/-- `utils/email_utils.py::generate_email_permutations` (source defaults:
`token_min_len=1`, `row_budget=100`, `enable_token_mode=True`). -/
def generate_email_permutations (enum : List String → List String)
    (first_name last_name domain : String)
    (token_min_len row_budget : Nat) (enable_token_mode : Bool) : List String :=
  let r := restructure_compound_names first_name last_name
  let restructured := _generate_patterns_core enum r.1 r.2 domain
    token_min_len row_budget enable_token_mode (some first_name) (some last_name)
  if r.1 ≠ first_name ∨ r.2 ≠ last_name then
    sUpdate restructured (_generate_patterns_core enum first_name last_name domain
      token_min_len row_budget enable_token_mode (some first_name) (some last_name))
  else restructured

/-- The canonical (insertion-order) enumeration of a modelled set. -/
def idEnum : List String → List String := fun l => l

/-- The reversed enumeration: a second, equally admissible way for Python
to enumerate the same unordered set. -/
def revEnum : List String → List String := fun l => l.reverse

/-- The generator exactly as the duplicate checkers call it
(all defaults). -/
def gen_perms_default (f l d : String) : List String :=
  generate_email_permutations idEnum f l d 1 100 true

/-- A worksheet: association list from (row, column) to cell text; the
most recent write shadows older ones, absent cells read as `""` (Python
`None`). -/
abbrev Wsheet := List ((Nat × Nat) × String)

/-- Read a cell (Python `ws.cell(r, c).value`, with `None` as `""`). -/
def wsGet (ws : Wsheet) (r c : Nat) : String :=
  ((ws.find? (fun e => e.1.1 == r && e.1.2 == c)).map (fun e => e.2)).getD ""

/-- Write a cell. -/
def wsSet (ws : Wsheet) (r c : Nat) (v : String) : Wsheet := ((r, c), v) :: ws

/-- `utils/file_utils.py::disqualify_lead`: set status/reason only when
previously empty; append the comment, joined with a comma onto the
stripped existing comment, unless it is already a substring of the
stripped existing comment. -/
def disqualify_lead (ws : Wsheet) (row colStatus colReason colComment : Nat)
    (reason comment : String) : Wsheet :=
  let ws1 :=
    if wsGet ws row colStatus = "" then wsSet ws row colStatus "Disqualified" else ws
  let ws2 :=
    if wsGet ws1 row colReason = "" then wsSet ws1 row colReason reason else ws1
  let existing := pyStrip (wsGet ws2 row colComment)
  if containsSub existing.data comment.data then ws2
  else if existing ≠ "" then
    wsSet ws2 row colComment (existing ++ ", " ++ comment)
  else wsSet ws2 row colComment comment

/-- A record row: ordered mapping from column name to raw value. -/
abbrev RowR := List (String × String)

/-- The field mapping supplied by the UI: role name to column name (or the
sentinel `"Not Available"`). -/
abbrev FieldMap := List (String × String)

/-- Python `mapping.get(k)` (`None` when the role is absent). -/
def mapGet (m : FieldMap) (k : String) : Option String :=
  (m.find? (fun e => e.1 == k)).map (fun e => e.2)

/-- Python `row.get(col, "")`. -/
def rowGet (r : RowR) (k : String) : String :=
  ((r.find? (fun e => e.1 == k)).map (fun e => e.2)).getD ""

/-- The `"Not Available"` sentinel. -/
def NA : String := "Not Available"

/-- `cpc_checker.py` lead-side value extraction: normalized company. -/
def cpcCompanyVal (m : FieldMap) (r : RowR) : String :=
  if mapGet m "lead_company" = some NA then ""
  else normalize_company (rowGet r ((mapGet m "lead_company").getD ""))

/-- `cpc_checker.py` lead-side value extraction: normalized TAL company. -/
def cpcTalVal (m : FieldMap) (r : RowR) : String :=
  if mapGet m "lead_tal" = some NA then ""
  else normalize_company (rowGet r ((mapGet m "lead_tal").getD ""))

/-- `cpc_checker.py` lead-side value extraction: stripped lowercased
domain. -/
def cpcDomainVal (m : FieldMap) (r : RowR) : String :=
  if mapGet m "lead_domain" = some NA then ""
  else pyLower (pyStrip (rowGet r ((mapGet m "lead_domain").getD "")))

/-- `cpc_checker.py` lead-side value extraction: root domain (empty when
the domain is empty). -/
def cpcRootVal (m : FieldMap) (r : RowR) : String :=
  let d := cpcDomainVal m r
  if d = "" then "" else extract_root_domain d

/-- A counter table (`defaultdict(int)`). -/
abbrev CntMap := List (String × Nat)

/-- Read a counter (0 when absent). -/
def cntGet (m : CntMap) (k : String) : Nat :=
  ((m.find? (fun e => e.1 == k)).map (fun e => e.2)).getD 0

/-- Increment a counter. -/
def cntInc (m : CntMap) (k : String) : CntMap := (k, cntGet m k + 1) :: m

/-- The four parallel counter tables kept by the CPC checkers. -/
structure Counts4 where
  company : CntMap
  tal : CntMap
  domain : CntMap
  root_domain : CntMap

/-- All counters empty. -/
def emptyCounts4 : Counts4 := ⟨[], [], [], []⟩

/-- `cpc_checker.py` delivery-side value extraction: normalized company. -/
def delCompanyVal (m : FieldMap) (r : RowR) : String :=
  if mapGet m "delivery_company" = some NA then ""
  else normalize_company (rowGet r ((mapGet m "delivery_company").getD ""))

/-- `cpc_checker.py` delivery-side value extraction: normalized TAL
company. -/
def delTalVal (m : FieldMap) (r : RowR) : String :=
  if mapGet m "delivery_tal" = some NA then ""
  else normalize_company (rowGet r ((mapGet m "delivery_tal").getD ""))

/-- `cpc_checker.py` delivery-side value extraction: stripped lowercased
domain. -/
def delDomainVal (m : FieldMap) (r : RowR) : String :=
  if mapGet m "delivery_domain" = some NA then ""
  else pyLower (pyStrip (rowGet r ((mapGet m "delivery_domain").getD "")))

/-- One delivery row of
`CPCChecker._count_delivery_occurrences`. -/
def count_delivery_row (m : FieldMap) (c : Counts4) (r : RowR) : Counts4 :=
  let comp := delCompanyVal m r
  let c := if comp ≠ "" then { c with company := cntInc c.company comp } else c
  let tal := delTalVal m r
  let c := if tal ≠ "" then { c with tal := cntInc c.tal tal } else c
  let dom := delDomainVal m r
  if dom ≠ "" then
    let c := { c with domain := cntInc c.domain dom }
    let root := extract_root_domain dom
    if root ≠ "" then { c with root_domain := cntInc c.root_domain root } else c
  else c

/-- `cpc_checker.py::CPCChecker._count_delivery_occurrences`. -/
def _count_delivery_occurrences (delivery : List RowR) (m : FieldMap) : Counts4 :=
  delivery.foldl (count_delivery_row m) emptyCounts4

/-- `utils.py::ensure_col_in_ws`: 1-based column of an existing header, or
append a new header (also writing the header cell). -/
def ensure_col_in_ws (headers : List String) (ws : Wsheet) (name : String) :
    Nat × List String × Wsheet :=
  if headers.contains name then (headers.indexOf name + 1, headers, ws)
  else (headers.length + 1, headers ++ [name], wsSet ws 1 (headers.length + 1) name)

/-- The per-run environment of the external CPC lead loop. -/
structure CpcEnv where
  limit : Nat
  dCounts : Counts4
  m : FieldMap
  colCompany : Nat
  colTal : Nat
  colDomain : Nat
  colRoot : Nat
  colStatus : Nat
  colReason : Nat
  colComment : Nat

/-- The mutable state of the external CPC lead loop. -/
structure CpcState where
  counts : Counts4
  ws : Wsheet
  cpc_violations : Nat
  companies_checked : List String

/-- The per-lead-row outcome of a CPC check (totals, per-dimension flags,
and the violation messages in source order). -/
structure CpcOut where
  companyVal : String
  talVal : String
  domainVal : String
  rootVal : String
  companyTotal : Nat
  talTotal : Nat
  domainTotal : Nat
  rootTotal : Nat
  companyViol : Bool
  talViol : Bool
  rootViol : Bool
  domViol : Bool
  violations : List String

/-- One lead row of `CPCChecker.run_cpc_check` (counter increments, total
computation, worksheet count writes, violation collection with
root-over-exact-domain priority, and disqualification). -/
def cpcStep (env : CpcEnv) (st : CpcState) (idx : Nat) (r : RowR) :
    CpcState × CpcOut :=
  let company_val := cpcCompanyVal env.m r
  let tal_val := cpcTalVal env.m r
  let domain_val := cpcDomainVal env.m r
  let root_val := cpcRootVal env.m r
  let counts := st.counts
  let counts :=
    if company_val ≠ "" then { counts with company := cntInc counts.company company_val }
    else counts
  let checked :=
    if company_val ≠ "" then sInsert st.companies_checked company_val
    else st.companies_checked
  let counts :=
    if tal_val ≠ "" then { counts with tal := cntInc counts.tal tal_val } else counts
  let counts :=
    if domain_val ≠ "" then { counts with domain := cntInc counts.domain domain_val }
    else counts
  let counts :=
    if root_val ≠ "" then { counts with root_domain := cntInc counts.root_domain root_val }
    else counts
  let company_total :=
    if company_val ≠ "" then
      cntGet env.dCounts.company company_val + cntGet counts.company company_val
    else 0
  let tal_total :=
    if tal_val ≠ "" then cntGet env.dCounts.tal tal_val + cntGet counts.tal tal_val
    else 0
  let domain_total :=
    if domain_val ≠ "" then
      cntGet env.dCounts.domain domain_val + cntGet counts.domain domain_val
    else 0
  let root_total :=
    if root_val ≠ "" then
      cntGet env.dCounts.root_domain root_val + cntGet counts.root_domain root_val
    else 0
  let ws := st.ws
  let ws := wsSet ws idx env.colCompany (if company_val ≠ "" then toString company_total else "")
  let ws := wsSet ws idx env.colTal (if tal_val ≠ "" then toString tal_total else "")
  let ws := wsSet ws idx env.colDomain (if domain_val ≠ "" then toString domain_total else "")
  let ws := wsSet ws idx env.colRoot (if root_val ≠ "" then toString root_total else "")
  let companyViol := company_val ≠ "" && env.limit < company_total
  let talViol := tal_val ≠ "" && env.limit < tal_total
  let rootViol := root_val ≠ "" && env.limit < root_total
  let domViol := !rootViol && (domain_val ≠ "" && env.limit < domain_total)
  let violations :=
    (if companyViol then
      ["CPC Exceeded by Company Name (" ++ toString company_total ++ "/" ++
        toString env.limit ++ ")"] else []) ++
    (if talViol then
      ["CPC Exceeded by TAL Company Name (" ++ toString tal_total ++ "/" ++
        toString env.limit ++ ")"] else []) ++
    (if rootViol then
      ["CPC Exceeded by Root Domain " ++ sQuote ++ root_val ++ sQuote ++ " (" ++
        toString root_total ++ "/" ++ toString env.limit ++ ")"]
     else if domViol then
      ["CPC Exceeded by Exact Domain (" ++ toString domain_total ++ "/" ++
        toString env.limit ++ ")"] else [])
  let ws :=
    if violations ≠ [] then
      disqualify_lead ws idx env.colStatus env.colReason env.colComment
        "Extra CPC" (pyJoin "; " violations)
    else ws
  let vc := if violations ≠ [] then st.cpc_violations + 1 else st.cpc_violations
  (⟨counts, ws, vc, checked⟩,
   ⟨company_val, tal_val, domain_val, root_val,
    company_total, tal_total, domain_total, root_total,
    companyViol, talViol, rootViol, domViol, violations⟩)

/-- The lead loop of `run_cpc_check`, also collecting the per-row
outcomes in order. -/
def cpcLoop (env : CpcEnv) (st : CpcState) (idx : Nat) :
    List RowR → CpcState × List CpcOut
  | [] => (st, [])
  | r :: rs =>
    let p := cpcStep env st idx r
    let q := cpcLoop env p.1 (idx + 1) rs
    (q.1, p.2 :: q.2)

/-- `cpc_checker.py::CPCChecker.run_cpc_check`. -/
def run_cpc_check (limit : Nat) (delivery lead : List RowR) (ws : Wsheet)
    (m : FieldMap) (headers : List String) : CpcState × List CpcOut :=
  let dCounts := _count_delivery_occurrences delivery m
  let e1 := ensure_col_in_ws headers ws "CPC by Company Name"
  let e2 := ensure_col_in_ws e1.2.1 e1.2.2 "CPC by TAL Company Name"
  let e3 := ensure_col_in_ws e2.2.1 e2.2.2 "CPC by Domain"
  let e4 := ensure_col_in_ws e3.2.1 e3.2.2 "CPC by Root Domain"
  let headers := e4.2.1
  let env : CpcEnv :=
    ⟨limit, dCounts, m, e1.1, e2.1, e3.1, e4.1,
     headers.indexOf "Lead Status" + 1, headers.indexOf "DQ Reason" + 1,
     headers.indexOf "QA Comment" + 1⟩
  cpcLoop env ⟨emptyCounts4, e4.2.2, 0, []⟩ 2 lead

/-- The per-run environment of the internal CPC lead loop
(`internal_checkers.py::InternalCPCChecker`). -/
structure IntCpcEnv where
  limit : Nat
  m : FieldMap
  colCompany : Nat
  colTal : Nat
  colDomain : Nat
  colRoot : Nat
  colStatus : Nat
  colReason : Nat
  colComment : Nat

/-- The mutable state of the internal CPC lead loop. -/
structure IntCpcState where
  counts : Counts4
  ws : Wsheet
  internal_cpc_violations : Nat
  internal_companies_checked : List String
  internal_root_domains_checked : List String

/-- One lead row of
`InternalCPCChecker.run_internal_cpc_check` (no delivery counts;
otherwise the same shape as the external step). -/
def intCpcStep (env : IntCpcEnv) (st : IntCpcState) (idx : Nat) (r : RowR) :
    IntCpcState × CpcOut :=
  let company_val := cpcCompanyVal env.m r
  let tal_val := cpcTalVal env.m r
  let domain_val := cpcDomainVal env.m r
  let root_val := cpcRootVal env.m r
  let counts := st.counts
  let counts :=
    if company_val ≠ "" then { counts with company := cntInc counts.company company_val }
    else counts
  let checked :=
    if company_val ≠ "" then sInsert st.internal_companies_checked company_val
    else st.internal_companies_checked
  let counts :=
    if tal_val ≠ "" then { counts with tal := cntInc counts.tal tal_val } else counts
  let counts :=
    if domain_val ≠ "" then { counts with domain := cntInc counts.domain domain_val }
    else counts
  let counts :=
    if root_val ≠ "" then { counts with root_domain := cntInc counts.root_domain root_val }
    else counts
  let rootsChecked :=
    if root_val ≠ "" then sInsert st.internal_root_domains_checked root_val
    else st.internal_root_domains_checked
  let company_count := if company_val ≠ "" then cntGet counts.company company_val else 0
  let tal_count := if tal_val ≠ "" then cntGet counts.tal tal_val else 0
  let domain_count := if domain_val ≠ "" then cntGet counts.domain domain_val else 0
  let root_count := if root_val ≠ "" then cntGet counts.root_domain root_val else 0
  let ws := st.ws
  let ws := wsSet ws idx env.colCompany (if company_val ≠ "" then toString company_count else "")
  let ws := wsSet ws idx env.colTal (if tal_val ≠ "" then toString tal_count else "")
  let ws := wsSet ws idx env.colDomain (if domain_val ≠ "" then toString domain_count else "")
  let ws := wsSet ws idx env.colRoot (if root_val ≠ "" then toString root_count else "")
  let companyViol := company_val ≠ "" && env.limit < company_count
  let talViol := tal_val ≠ "" && env.limit < tal_count
  let rootViol := root_val ≠ "" && env.limit < root_count
  let domViol := !rootViol && (domain_val ≠ "" && env.limit < domain_count)
  let violations :=
    (if companyViol then
      ["Internal CPC Exceeded by Company (" ++ toString company_count ++ "/" ++
        toString env.limit ++ ")"] else []) ++
    (if talViol then
      ["Internal CPC Exceeded by TAL Company (" ++ toString tal_count ++ "/" ++
        toString env.limit ++ ")"] else []) ++
    (if rootViol then
      ["Internal CPC Exceeded by Root Domain " ++ sQuote ++ root_val ++ sQuote ++ " (" ++
        toString root_count ++ "/" ++ toString env.limit ++ ")"]
     else if domViol then
      ["Internal CPC Exceeded by Exact Domain (" ++ toString domain_count ++ "/" ++
        toString env.limit ++ ")"] else [])
  let ws :=
    if violations ≠ [] then
      disqualify_lead ws idx env.colStatus env.colReason env.colComment
        "Internal CPC Exceeded" (pyJoin "; " violations)
    else ws
  let vc :=
    if violations ≠ [] then st.internal_cpc_violations + 1 else st.internal_cpc_violations
  (⟨counts, ws, vc, checked, rootsChecked⟩,
   ⟨company_val, tal_val, domain_val, root_val,
    company_count, tal_count, domain_count, root_count,
    companyViol, talViol, rootViol, domViol, violations⟩)

/-- The lead loop of `run_internal_cpc_check`. -/
def intCpcLoop (env : IntCpcEnv) (st : IntCpcState) (idx : Nat) :
    List RowR → IntCpcState × List CpcOut
  | [] => (st, [])
  | r :: rs =>
    let p := intCpcStep env st idx r
    let q := intCpcLoop env p.1 (idx + 1) rs
    (q.1, p.2 :: q.2)

/-- `internal_checkers.py::InternalCPCChecker.run_internal_cpc_check`. -/
def run_internal_cpc_check (limit : Nat) (lead : List RowR) (ws : Wsheet)
    (m : FieldMap) (headers : List String) : IntCpcState × List CpcOut :=
  let e1 := ensure_col_in_ws headers ws "Internal CPC by Company"
  let e2 := ensure_col_in_ws e1.2.1 e1.2.2 "Internal CPC by TAL Company"
  let e3 := ensure_col_in_ws e2.2.1 e2.2.2 "Internal CPC by Domain"
  let e4 := ensure_col_in_ws e3.2.1 e3.2.2 "Internal CPC by Root Domain"
  let headers := e4.2.1
  let env : IntCpcEnv :=
    ⟨limit, m, e1.1, e2.1, e3.1, e4.1,
     headers.indexOf "Lead Status" + 1, headers.indexOf "DQ Reason" + 1,
     headers.indexOf "QA Comment" + 1⟩
  intCpcLoop env ⟨emptyCounts4, e4.2.2, 0, [], []⟩ 2 lead

/-- Abstract permutation generator, as seen by the duplicate checkers:
`Except.error` models an exception raised inside
`generate_email_permutations`, which the callers catch per record. -/
abbrev PermGen := String → String → String → Except Unit (List String)

/-- The generator that never raises, returning the embedded
`generate_email_permutations` with the caller defaults. -/
def okGen : PermGen := fun f l d => Except.ok (gen_perms_default f l d)

/-- `duplicate_checker.py::DuplicateChecker._can_check_permutations`. -/
def _can_check_permutations (m : FieldMap) : Bool :=
  mapGet m "delivery_first" != some NA && mapGet m "delivery_last" != some NA &&
  mapGet m "delivery_domain" != some NA && mapGet m "lead_first" != some NA &&
  mapGet m "lead_last" != some NA && mapGet m "lead_domain" != some NA

/-- The stats dict of `DuplicateChecker`. -/
structure DupStats where
  duplicates_found : Nat
  internal_duplicates : Nat
  permutation_errors : Nat
  duplicate_details : List (Nat × String × String)

/-- All-zero duplicate stats. -/
def dupStats0 : DupStats := ⟨0, 0, 0, []⟩

/-- The delivery signature sets of
`DuplicateChecker._build_delivery_signatures`. -/
structure DelSigs where
  emails : List String
  email_permutations : List String
  linkedin : List String

/-- One delivery row of `_build_delivery_signatures` (email signature,
permutation union under try/except, LinkedIn signature). -/
def delSigStep (gen : PermGen) (m : FieldMap) (st : DelSigs × DupStats) (r : RowR) :
    DelSigs × DupStats :=
  let sigs := st.1
  let stats := st.2
  let sigs :=
    if mapGet m "delivery_email" != some NA then
      let e := pyLower (pyStrip (rowGet r ((mapGet m "delivery_email").getD "")))
      if e ≠ "" then { sigs with emails := sInsert sigs.emails e } else sigs
    else sigs
  let f := pyStrip (rowGet r ((mapGet m "delivery_first").getD ""))
  let l := pyStrip (rowGet r ((mapGet m "delivery_last").getD ""))
  let d := pyStrip (rowGet r ((mapGet m "delivery_domain").getD ""))
  let attempt := _can_check_permutations m && (f ≠ "" && l ≠ "" && d ≠ "")
  let p :=
    if attempt then
      match gen f l d with
      | Except.ok perms =>
        ({ sigs with email_permutations := sUpdate sigs.email_permutations perms }, stats)
      | Except.error _ =>
        (sigs, { stats with permutation_errors := stats.permutation_errors + 1 })
    else (sigs, stats)
  let sigs := p.1
  let stats := p.2
  let sigs :=
    if mapGet m "delivery_linkedin" != some NA then
      let li := pyLower (pyStrip (rowGet r ((mapGet m "delivery_linkedin").getD "")))
      if li ≠ "" then { sigs with linkedin := sInsert sigs.linkedin li } else sigs
    else sigs
  (sigs, stats)

/-- `duplicate_checker.py::DuplicateChecker._build_delivery_signatures`. -/
def _build_delivery_signatures (gen : PermGen) (delivery : List RowR) (m : FieldMap) :
    DelSigs × DupStats :=
  delivery.foldl (delSigStep gen m) (⟨[], [], []⟩, dupStats0)

/-- The per-run environment of the external duplicate lead loop. -/
structure DupEnv where
  m : FieldMap
  gen : PermGen
  sigs : DelSigs
  colStatus : Nat
  colReason : Nat
  colComment : Nat

/-- The mutable state of the external duplicate lead loop. -/
structure DupState where
  leadEmails : List String
  leadLinkedin : List String
  ws : Wsheet
  stats : DupStats

/-- The per-lead-row outcome of the external duplicate check. -/
structure DupOut where
  skipped : Bool
  emailVal : String
  linkedinVal : String
  duplicate_found : Bool
  internal_duplicate : Bool
  reasons : List String

/-- The lead email value used by the external duplicate check. -/
def dupEmailVal (m : FieldMap) (r : RowR) : String :=
  if mapGet m "lead_email" = some NA then ""
  else pyLower (pyStrip (rowGet r ((mapGet m "lead_email").getD "")))

/-- The lead LinkedIn value used by the external duplicate check. -/
def dupLinkVal (m : FieldMap) (r : RowR) : String :=
  if mapGet m "lead_linkedin" = some NA then ""
  else pyLower (pyStrip (rowGet r ((mapGet m "lead_linkedin").getD "")))

/-- The stripped lead first/last/domain triple fed to the permutation
generator by the duplicate checkers. -/
def dupLF (m : FieldMap) (r : RowR) : String :=
  pyStrip (rowGet r ((mapGet m "lead_first").getD ""))

/-- See `dupLF`. -/
def dupLL (m : FieldMap) (r : RowR) : String :=
  pyStrip (rowGet r ((mapGet m "lead_last").getD ""))

/-- See `dupLF`. -/
def dupLD (m : FieldMap) (r : RowR) : String :=
  pyStrip (rowGet r ((mapGet m "lead_domain").getD ""))

/-- One lead row of `DuplicateChecker.run_duplicate_check`: skip
already-disqualified rows, check delivery email/LinkedIn signatures, the
permutation intersection (with per-record exception handling), then the
incremental internal check, then record the row's own signatures. -/
def dupStep (env : DupEnv) (st : DupState) (idx : Nat) (r : RowR) :
    DupState × DupOut :=
  if wsGet st.ws idx env.colStatus = "Disqualified" then
    (st, ⟨true, "", "", false, false, []⟩)
  else
    let email_val := dupEmailVal env.m r
    let linkedin_val := dupLinkVal env.m r
    let hitEmailDel := email_val ≠ "" && env.sigs.emails.contains email_val
    let hitLinkDel := linkedin_val ≠ "" && env.sigs.linkedin.contains linkedin_val
    let stats := st.stats
    let stats :=
      if hitEmailDel then
        { stats with duplicate_details := stats.duplicate_details ++ [(idx, "email", email_val)] }
      else stats
    let stats :=
      if hitLinkDel then
        { stats with duplicate_details := stats.duplicate_details ++ [(idx, "linkedin", linkedin_val)] }
      else stats
    let dupFound0 := hitEmailDel || hitLinkDel
    let reasons :=
      (if hitEmailDel then ["Email match in delivery"] else []) ++
      (if hitLinkDel then ["LinkedIn match in delivery"] else [])
    let lf := dupLF env.m r
    let ll := dupLL env.m r
    let ld := dupLD env.m r
    let permAttempt :=
      !dupFound0 && _can_check_permutations env.m && (lf ≠ "" && ll ≠ "" && ld ≠ "")
    let permHit := permAttempt &&
      (match env.gen lf ll ld with
       | Except.ok perms =>
         (perms.filter (fun p => env.sigs.email_permutations.contains p)) ≠ []
       | Except.error _ => false)
    let permErr := permAttempt &&
      (match env.gen lf ll ld with
       | Except.ok _ => false
       | Except.error _ => true)
    let stats :=
      if permErr then { stats with permutation_errors := stats.permutation_errors + 1 }
      else stats
    let stats :=
      if permHit then
        { stats with duplicate_details :=
            stats.duplicate_details ++ [(idx, "permutation", lf ++ " " ++ ll ++ " @ " ++ ld)] }
      else stats
    let duplicate_found := dupFound0 || permHit
    let reasons := reasons ++ (if permHit then ["Email permutation match in delivery"] else [])
    let intEmail := email_val ≠ "" && st.leadEmails.contains email_val
    let intLink := linkedin_val ≠ "" && st.leadLinkedin.contains linkedin_val
    let internal_duplicate := intEmail || intLink
    let reasons := reasons ++
      (if intEmail then ["Internal duplicate email"] else []) ++
      (if intLink then ["Internal duplicate LinkedIn"] else [])
    let leadEmails := if email_val ≠ "" then sInsert st.leadEmails email_val else st.leadEmails
    let leadLinkedin :=
      if linkedin_val ≠ "" then sInsert st.leadLinkedin linkedin_val else st.leadLinkedin
    let ws := st.ws
    let fin :=
      if duplicate_found then
        (disqualify_lead ws idx env.colStatus env.colReason env.colComment
          "Same Prospect Duplicate" ("Same Prospect Same Campaign - " ++ pyJoin "; " reasons),
         { stats with duplicates_found := stats.duplicates_found + 1 })
      else if internal_duplicate then
        (disqualify_lead ws idx env.colStatus env.colReason env.colComment
          "Internal Duplicate" ("Duplicate within file - " ++ pyJoin "; " reasons),
         { stats with internal_duplicates := stats.internal_duplicates + 1 })
      else (ws, stats)
    (⟨leadEmails, leadLinkedin, fin.1, fin.2⟩,
     ⟨false, email_val, linkedin_val, duplicate_found, internal_duplicate, reasons⟩)

/-- The lead loop of `run_duplicate_check`. -/
def dupLoop (env : DupEnv) (st : DupState) (idx : Nat) :
    List RowR → DupState × List DupOut
  | [] => (st, [])
  | r :: rs =>
    let p := dupStep env st idx r
    let q := dupLoop env p.1 (idx + 1) rs
    (q.1, p.2 :: q.2)

/-- `duplicate_checker.py::DuplicateChecker.run_duplicate_check`,
parameterized by the permutation generator. -/
def run_duplicate_check (gen : PermGen) (delivery lead : List RowR) (ws : Wsheet)
    (m : FieldMap) (colStatus colReason colComment : Nat) : DupState × List DupOut :=
  let built := _build_delivery_signatures gen delivery m
  dupLoop ⟨m, gen, built.1, colStatus, colReason, colComment⟩
    ⟨[], [], ws, built.2⟩ 2 lead

/-- `internal_checkers.py::InternalDuplicateChecker._can_check_name_domain`. -/
def _can_check_name_domain (m : FieldMap) : Bool :=
  mapGet m "lead_first" != some NA && mapGet m "lead_last" != some NA &&
  mapGet m "lead_domain" != some NA

/-- `re.sub("[^a-z]", "", s.lower())`. -/
def azFilter (s : String) : String :=
  String.mk ((pyLower s).data.filter (fun c => decide ('a' ≤ c) && decide (c ≤ 'z')))

/-- `internal_checkers.py::InternalDuplicateChecker._generate_conservative_name_signatures`. -/
def _generate_conservative_name_signatures (first_name last_name domain : String) :
    List String :=
  let first_clean := azFilter first_name
  let last_clean := azFilter last_name
  if first_clean = "" ∨ last_clean = "" then []
  else
    dedup
      ([mkEmail (first_clean ++ "." ++ last_clean) domain,
        mkEmail (first_clean ++ last_clean) domain] ++
       (if 3 ≤ last_clean.length then
          [mkEmail (first_clean ++ "." ++ String.mk (last_clean.data.take 3)) domain,
           mkEmail (first_clean ++ String.mk (last_clean.data.take 3)) domain]
        else []))

/-- The mutable state of the internal duplicate lead loop. -/
structure IntDupState where
  emails : List String
  linkedin : List String
  name_domain : List String
  ws : Wsheet
  internal_duplicates : Nat
  details : List (Nat × String × String)

/-- The per-lead-row outcome of the internal duplicate check. -/
structure IntDupOut where
  skipped : Bool
  emailVal : String
  linkedinVal : String
  duplicate_found : Bool
  reasons : List String

/-- The normalized LinkedIn value used by the internal duplicate check. -/
def intLinkVal (m : FieldMap) (r : RowR) : String :=
  if mapGet m "lead_linkedin" = some NA then ""
  else
    let raw := pyStrip (rowGet r ((mapGet m "lead_linkedin").getD ""))
    if raw ≠ "" then normalize_linkedin_url raw else ""

/-- One lead row of
`InternalDuplicateChecker.run_internal_duplicate_check`: skip
already-disqualified rows, exact email/LinkedIn matching, then the
conservative name+root-domain check, then record signatures. -/
def intDupStep (m : FieldMap) (colStatus colReason colComment : Nat)
    (st : IntDupState) (idx : Nat) (r : RowR) : IntDupState × IntDupOut :=
  if wsGet st.ws idx colStatus = "Disqualified" then
    (st, ⟨true, "", "", false, []⟩)
  else
    let email_val := dupEmailVal m r
    let linkedin_val := intLinkVal m r
    let hitEmail := email_val ≠ "" && st.emails.contains email_val
    let hitLink := linkedin_val ≠ "" && st.linkedin.contains linkedin_val
    let details := st.details ++
      (if hitEmail then [(idx, "email", email_val)] else []) ++
      (if hitLink then [(idx, "linkedin", linkedin_val)] else [])
    let df0 := hitEmail || hitLink
    let reasons :=
      (if hitEmail then ["Internal duplicate email"] else []) ++
      (if hitLink then ["Internal duplicate LinkedIn"] else [])
    let canND := !df0 && _can_check_name_domain m
    let fn := pyLower (pyStrip (rowGet r ((mapGet m "lead_first").getD "")))
    let ln := pyLower (pyStrip (rowGet r ((mapGet m "lead_last").getD "")))
    let domain_raw := pyLower (pyStrip (rowGet r ((mapGet m "lead_domain").getD "")))
    let dom := if domain_raw ≠ "" then extract_root_domain domain_raw else domain_raw
    let ndActive := canND && (fn ≠ "" && ln ≠ "" && dom ≠ "")
    let csigs := _generate_conservative_name_signatures fn ln dom
    let ndHit := ndActive && (csigs.filter (fun s => st.name_domain.contains s)) ≠ []
    let ndFirst := ((csigs.find? (fun s => st.name_domain.contains s)).getD "")
    let details := details ++ (if ndHit then [(idx, "name_root_domain", ndFirst)] else [])
    let reasons := reasons ++
      (if ndHit then ["Internal duplicate name+root domain match"] else [])
    let name_domain := if ndActive then sUpdate st.name_domain csigs else st.name_domain
    let duplicate_found := df0 || ndHit
    let emails := if email_val ≠ "" then sInsert st.emails email_val else st.emails
    let linkedin :=
      if linkedin_val ≠ "" then sInsert st.linkedin linkedin_val else st.linkedin
    let fin :=
      if duplicate_found then
        (disqualify_lead st.ws idx colStatus colReason colComment "Internal Duplicate"
          ("Duplicate within file - " ++ pyJoin "; " reasons),
         st.internal_duplicates + 1)
      else (st.ws, st.internal_duplicates)
    (⟨emails, linkedin, name_domain, fin.1, fin.2, details⟩,
     ⟨false, email_val, linkedin_val, duplicate_found, reasons⟩)

/-- The lead loop of `run_internal_duplicate_check`. -/
def intDupLoop (m : FieldMap) (colStatus colReason colComment : Nat)
    (st : IntDupState) (idx : Nat) : List RowR → IntDupState × List IntDupOut
  | [] => (st, [])
  | r :: rs =>
    let p := intDupStep m colStatus colReason colComment st idx r
    let q := intDupLoop m colStatus colReason colComment p.1 (idx + 1) rs
    (q.1, p.2 :: q.2)

/-- `internal_checkers.py::InternalDuplicateChecker.run_internal_duplicate_check`. -/
def run_internal_duplicate_check (lead : List RowR) (ws : Wsheet) (m : FieldMap)
    (colStatus colReason colComment : Nat) : IntDupState × List IntDupOut :=
  intDupLoop m colStatus colReason colComment ⟨[], [], [], ws, 0, []⟩ 2 lead

/-- The first-seen phone record of `InternalPhoneChecker`. -/
structure PhoneInfo where
  identifier : String
  company : String
  domain : String
  row : Nat

/-- The mutable state of the internal phone loop. -/
structure PhoneState where
  map : List (String × PhoneInfo)
  ws : Wsheet
  conflicts : Nat
  details : List (Nat × String × String)

/-- The per-lead-row outcome of the internal phone check. -/
structure PhoneOut where
  phone : String
  identifier : String
  conflict : Option String

/-- `internal_checkers.py::InternalPhoneChecker.get_company_identifier`:
root domain, else exact domain, else lowercased normalized company. -/
def get_company_identifier (r : RowR) (company_col domain_col : String) : String :=
  let dom :=
    if domain_col ≠ "" ∧ domain_col ≠ NA then
      let domain_raw := pyStrip (rowGet r domain_col)
      if domain_raw ≠ "" ∧ ¬(["", "none", "null", "n/a"].contains (pyLower domain_raw)) then
        pyLower domain_raw
      else ""
    else ""
  let root_domain := if dom ≠ "" then extract_root_domain dom else ""
  let company :=
    if company_col ≠ "" ∧ company_col ≠ NA then
      let company_raw := pyStrip (rowGet r company_col)
      if company_raw ≠ "" then normalize_company company_raw else ""
    else ""
  if root_domain ≠ "" then root_domain
  else if dom ≠ "" then dom
  else if company ≠ "" then pyLower company
  else ""

/-- The normalized phone value of a lead row. -/
def phoneVal (m : FieldMap) (r : RowR) : String :=
  normalize_phone (rowGet r ((mapGet m "lead_phone").getD ""))

/-- One lead row of `InternalPhoneChecker.run_internal_phone_check`:
skip rows without a normalized phone or identifier; flag a conflict when
the phone was first seen with a different identifier; otherwise record
the first occurrence. -/
def phoneStep (m : FieldMap) (conflictCol : Nat) (st : PhoneState) (idx : Nat)
    (r : RowR) : PhoneState × PhoneOut :=
  let phone := phoneVal m r
  if phone = "" then (st, ⟨phone, "", none⟩)
  else
    let ident := get_company_identifier r ((mapGet m "lead_company").getD NA)
      ((mapGet m "lead_domain").getD NA)
    if ident = "" then (st, ⟨phone, ident, none⟩)
    else
      match (st.map.find? (fun e => e.1 == phone)).map (fun e => e.2) with
      | some info =>
        if info.identifier ≠ ident then
          let current_domain := pyStrip (rowGet r ((mapGet m "lead_domain").getD ""))
          let current_root :=
            if current_domain ≠ "" then extract_root_domain current_domain else ""
          let existing_root := if info.domain ≠ "" then extract_root_domain info.domain else ""
          let msg :=
            if current_root ≠ "" ∧ existing_root ≠ "" then
              "Phone used for " ++ info.company ++ " (root: " ++ existing_root ++
                ") at row " ++ toString info.row
            else if info.domain ≠ "" then
              "Phone used for " ++ info.company ++ " (" ++ info.domain ++ ") at row " ++
                toString info.row
            else "Phone used for " ++ info.company ++ " at row " ++ toString info.row
          (⟨st.map, wsSet st.ws idx conflictCol msg, st.conflicts + 1,
            st.details ++ [(idx, phone, msg)]⟩, ⟨phone, ident, some msg⟩)
        else (st, ⟨phone, ident, none⟩)
      | none =>
        let info : PhoneInfo :=
          ⟨ident, pyStrip (rowGet r ((mapGet m "lead_company").getD "")),
           pyStrip (rowGet r ((mapGet m "lead_domain").getD "")), idx⟩
        (⟨(phone, info) :: st.map, st.ws, st.conflicts, st.details⟩, ⟨phone, ident, none⟩)

/-- The lead loop of `run_internal_phone_check`. -/
def phoneLoop (m : FieldMap) (conflictCol : Nat) (st : PhoneState) (idx : Nat) :
    List RowR → PhoneState × List PhoneOut
  | [] => (st, [])
  | r :: rs =>
    let p := phoneStep m conflictCol st idx r
    let q := phoneLoop m conflictCol p.1 (idx + 1) rs
    (q.1, p.2 :: q.2)

/-- `internal_checkers.py::InternalPhoneChecker.run_internal_phone_check`. -/
def run_internal_phone_check (lead : List RowR) (ws : Wsheet) (m : FieldMap)
    (conflictCol : Nat) : PhoneState × List PhoneOut :=
  if mapGet m "lead_phone" = some NA then (⟨[], ws, 0, []⟩, [])
  else phoneLoop m conflictCol ⟨[], ws, 0, []⟩ 2 lead

set_option maxRecDepth 10000

/-- The §8.7 scenario: field mapping (TAL role not available). -/
def acmeMap : FieldMap :=
  [("lead_company", "company"), ("lead_domain", "domain"), ("lead_tal", NA),
   ("delivery_company", "company"), ("delivery_domain", "domain"), ("delivery_tal", NA)]

/-- Headers for the scenario lead sheet. -/
def acmeHeaders : List String :=
  ["company", "domain", "Lead Status", "DQ Reason", "QA Comment"]

/-- The §8.7 scenario delivery data. -/
def acmeDelivery : List RowR := [[("company", "Acme Inc"), ("domain", "acme.com")]]

/-- The §8.7 scenario lead data. -/
def acmeLead : List RowR :=
  [[("company", "Acme"), ("domain", "acme.com")],
   [("company", "Acme"), ("domain", "acme.com")],
   [("company", "Acme"), ("domain", "acme.com")]]

/-- The §8.7 scenario run with `limit = 2`. -/
def acmeRun : CpcState × List CpcOut :=
  run_cpc_check 2 acmeDelivery acmeLead [] acmeMap acmeHeaders

/-- The violation list of the i-th (0-based) lead-row outcome. -/
def violationsAt (outs : List CpcOut) (i : Nat) : List String :=
  ((outs.get? i).map (fun o => o.violations)).getD []

/-- Claim C2 (counterexample): the claim says the first two lead rows of
the Acme scenario (delivery Acme Inc/acme.com, three Acme/acme.com leads,
limit 2) receive zero violations; in fact the second lead row is already
flagged (its running totals are 3 > 2). -/
theorem c2_counterexample : violationsAt acmeRun.2 1 ≠ [] := by decide

/-- Claim C2 (amended): in the Acme scenario the first lead row is clean,
and the second and third lead rows are each flagged (running totals 3 and
4 respectively), for two violation events in total. -/
theorem c2_amended_scenario :
    violationsAt acmeRun.2 0 = [] ∧
    ((acmeRun.2.get? 1).map
      (fun o => (o.companyTotal, o.rootTotal, decide (o.violations ≠ [])))) =
      some (3, 3, true) ∧
    ((acmeRun.2.get? 2).map
      (fun o => (o.companyTotal, o.rootTotal, decide (o.violations ≠ [])))) =
      some (4, 4, true) ∧
    acmeRun.1.cpc_violations = 2 := by decide

/-- Claim C3 (counterexample): the claim says a root-domain (unified)
violation suppresses the plain-company legacy violation on that record;
on the second Acme lead row the root-domain violation fires and the
company-name legacy message is nevertheless kept. -/
theorem c3_counterexample :
    ((acmeRun.2.get? 1).map
      (fun o => o.rootViol && o.violations.contains "CPC Exceeded by Company Name (3/2)")) =
      some true := by decide

/-- The mapping of the single-dimension CPC counterexample (company
only). -/
def c1Map : FieldMap :=
  [("lead_company", "company"), ("lead_tal", NA), ("lead_domain", NA),
   ("delivery_company", "company"), ("delivery_tal", NA), ("delivery_domain", NA)]

/-- Three delivery occurrences of company `x`. -/
def c1Delivery : List RowR := [[("company", "x")], [("company", "x")], [("company", "x")]]

/-- One lead occurrence of company `x`. -/
def c1Lead : List RowR := [[("company", "x")]]

/-- The C1 counterexample run with `limit = 2`. -/
def c1Run : CpcState × List CpcOut :=
  run_cpc_check 2 c1Delivery c1Lead [] c1Map acmeHeaders

/-- Number of lead rows whose company identity equals `ident` and whose
company-dimension CPC flag fired. -/
def companyFlaggedCount (outs : List CpcOut) (ident : String) : Nat :=
  (outs.filter (fun o => o.companyVal == ident && o.companyViol)).length

/-- Claim C1 (counterexample): identity `x` appears N = 4 times in total
(3 delivery + 1 lead) with limit L = 2, so the claim demands exactly
max(0, N - L) = 2 flagged lead occurrences; the code flags only the one
existing lead occurrence. -/
theorem c1_counterexample :
    cntGet (_count_delivery_occurrences c1Delivery c1Map).company "x" +
      (c1Lead.filter (fun r => cpcCompanyVal c1Map r == "x")).length = 4 ∧
    companyFlaggedCount c1Run.2 "x" = 1 ∧
    companyFlaggedCount c1Run.2 "x" ≠ max 0 (4 - 2) := by decide

/-- Claim C4 (counterexample): company normalization is not idempotent:
the article-stripping pass removes one leading article per pass, so
`"a a b"` normalizes to `"a b"`, which normalizes again to `"b"`. -/
theorem c4_counterexample :
    normalize_company (normalize_company "a a b") ≠ normalize_company "a a b" := by
  decide

/-- Claim C5: the budgeted token-mode expansion of
`_generate_patterns_core` truncates `list(new_patterns)[:budget_remaining]`
where `new_patterns` is an unordered Python set, and sorts the token list
(`list(set(...))`) by length only; two runs that enumerate those sets in
different but equally admissible orders (here: canonical and reversed,
which enumerate permutations of the same sets) select different candidate
sets once the budget binds, so the claimed run-to-run determinism fails. -/
theorem c5_generator_order_dependent :
    (∀ l : List String, (revEnum l).Perm (idEnum l)) ∧
    (_generate_patterns_core idEnum "ab" "cd ef" "x.co" 1 3 true
        none none).contains "abab@x.co" = true ∧
    (_generate_patterns_core revEnum "ab" "cd ef" "x.co" 1 3 true
        none none).contains "abab@x.co" = false := by
  refine ⟨fun l => l.reverse_perm, ?_, ?_⟩ <;> decide

/-- Membership is preserved by `sInsert`. -/
theorem mem_sInsert_of_mem {s : List String} {a x : String} (h : a ∈ s) :
    a ∈ sInsert s x := by
  unfold sInsert
  split
  · exact h
  · exact List.mem_append_left _ h

/-- Membership is preserved by `sUpdate`. -/
theorem mem_sUpdate_left {xs : List String} {s : List String} {a : String}
    (h : a ∈ s) : a ∈ sUpdate s xs := by
  induction xs generalizing s with
  | nil => exact h
  | cons x xs ih => exact ih (mem_sInsert_of_mem h)

/-- Base patterns survive into the final token-mode result of
`_generate_patterns_core`, whatever the set enumeration order. -/
theorem core_mem_of_base (enum : List String → List String)
    (fn ln dom : String) (tml budget : Nat)
    (ofn oln : Option String) (q : List String × List String × String)
    (x : String) (hq : _gen_inputs fn ln dom = some q)
    (hx : x ∈ _base_permutations q.1 q.2.1 q.2.2) (hne : x ≠ "") :
    x ∈ _generate_patterns_core enum fn ln dom tml budget true ofn oln := by
  unfold _generate_patterns_core
  rw [hq]
  simp only [Bool.not_true, Bool.false_eq_true, if_false]
  exact List.mem_filter.mpr ⟨mem_sUpdate_left hx, by simpa using hne⟩

/-- Claim C8: `generate_email_permutations("Jane", "Doe", "acme.com")`
(defaults: token_min_len 1, budget 100, token mode on) contains the four
required candidates, for every admissible set-enumeration order. -/
theorem c8_containment (enum : List String → List String) :
    "janedoe@acme.com" ∈ generate_email_permutations enum "Jane" "Doe" "acme.com" 1 100 true ∧
    "jane.doe@acme.com" ∈ generate_email_permutations enum "Jane" "Doe" "acme.com" 1 100 true ∧
    "doe.jane@acme.com" ∈ generate_email_permutations enum "Jane" "Doe" "acme.com" 1 100 true ∧
    "jdoe@acme.com" ∈ generate_email_permutations enum "Jane" "Doe" "acme.com" 1 100 true := by
  have hr : restructure_compound_names "Jane" "Doe" = ("Jane", "Doe") := by decide
  have hgen : generate_email_permutations enum "Jane" "Doe" "acme.com" 1 100 true =
      _generate_patterns_core enum "Jane" "Doe" "acme.com" 1 100 true
        (some "Jane") (some "Doe") := by
    unfold generate_email_permutations
    rw [hr]
    simp
  have hq : _gen_inputs "Jane" "Doe" "acme.com" =
      some (["jane"], ["doe"], "acme.com") := by decide
  rw [hgen]
  refine ⟨?_, ?_, ?_, ?_⟩ <;>
    exact core_mem_of_base enum _ _ _ _ _ _ _ _ _ hq (by decide) (by decide)

/-- Reading a cell after a write: the written value at the written cell,
the old value elsewhere. -/
theorem wsGet_set (ws : Wsheet) (r c r' c' : Nat) (v : String) :
    wsGet (wsSet ws r c v) r' c' = if r = r' ∧ c = c' then v else wsGet ws r' c' := by
  unfold wsGet wsSet
  by_cases h : r = r' ∧ c = c'
  · rw [if_pos h, List.find?_cons_of_pos] <;> simp [h.1, h.2]
  · rw [if_neg h, List.find?_cons_of_neg]
    simp only [Bool.and_eq_true, beq_iff_eq]
    tauto

/-- A worksheet cell before initialization, with status nonempty and a
comment holding `" ab "`. -/
def c7Ws : Wsheet := [((2, 1), "occupied"), ((2, 3), " ab ")]

/-- Claim C7 (counterexample): the claim says the message is appended
exactly when it is not already a substring of the existing comment; here
the message `"ab "` IS a substring of the existing comment `" ab "`, yet
the writer appends it anyway, because the source tests the message
against the stripped comment (`"ab"`). -/
theorem c7_counterexample :
    containsSub (wsGet c7Ws 2 3).data "ab ".data = true ∧
    wsGet (disqualify_lead c7Ws 2 1 2 3 "R" "ab ") 2 3 ≠ wsGet c7Ws 2 3 := by decide

/-- Claim C7 (amended): per call, the status cell becomes `"Disqualified"`
exactly when previously empty and is untouched otherwise; the reason cell
becomes the given reason exactly when previously empty; and the comment
cell is rewritten exactly when the message is not a substring of the
whitespace-stripped existing comment, in which case the message is joined
onto the stripped existing comment with `", "` (or stands alone when the
stripped comment is empty). -/
theorem c7_amended (ws : Wsheet) (row cs cr cc : Nat) (reason comment : String)
    (hsr : cs ≠ cr) (hsc : cs ≠ cc) (hrc : cr ≠ cc) :
    (wsGet (disqualify_lead ws row cs cr cc reason comment) row cs =
      if wsGet ws row cs = "" then "Disqualified" else wsGet ws row cs) ∧
    (wsGet (disqualify_lead ws row cs cr cc reason comment) row cr =
      if wsGet ws row cr = "" then reason else wsGet ws row cr) ∧
    (wsGet (disqualify_lead ws row cs cr cc reason comment) row cc =
      if containsSub (pyStrip (wsGet ws row cc)).data comment.data then
        wsGet ws row cc
      else if pyStrip (wsGet ws row cc) ≠ "" then
        pyStrip (wsGet ws row cc) ++ ", " ++ comment
      else comment) := by
  unfold disqualify_lead
  simp only [wsGet_set]
  split_ifs <;>
    simp_all [wsGet_set, hsr, hsc, hrc, Ne.symm hsr, Ne.symm hsc, Ne.symm hrc]

/-- Witness for C7: concrete instantiation of `c7_amended` with distinct
columns, evaluating the writer on a concrete worksheet. -/
theorem c7_witness :
    ((1 : Nat) ≠ 2 ∧ (1 : Nat) ≠ 3 ∧ (2 : Nat) ≠ 3) ∧
    ((wsGet (disqualify_lead c7Ws 2 1 2 3 "R" "ab ") 2 1 =
      if wsGet c7Ws 2 1 = "" then "Disqualified" else wsGet c7Ws 2 1) ∧
    (wsGet (disqualify_lead c7Ws 2 1 2 3 "R" "ab ") 2 2 =
      if wsGet c7Ws 2 2 = "" then "R" else wsGet c7Ws 2 2) ∧
    (wsGet (disqualify_lead c7Ws 2 1 2 3 "R" "ab ") 2 3 =
      if containsSub (pyStrip (wsGet c7Ws 2 3)).data "ab ".data then
        wsGet c7Ws 2 3
      else if pyStrip (wsGet c7Ws 2 3) ≠ "" then
        pyStrip (wsGet c7Ws 2 3) ++ ", " ++ "ab "
      else "ab ")) :=
  ⟨by decide, c7_amended c7Ws 2 1 2 3 "R" "ab " (by decide) (by decide) (by decide)⟩

instance : Inhabited CpcOut :=
  ⟨⟨"", "", "", "", 0, 0, 0, 0, false, false, false, false, []⟩⟩

/-- Incrementing a counter raises exactly its own key by one. -/
theorem cntGet_inc (m : CntMap) (k k' : String) :
    cntGet (cntInc m k) k' = cntGet m k' + if k = k' then 1 else 0 := by
  unfold cntInc cntGet
  by_cases h : k = k'
  · subst h
    rw [List.find?_cons_of_pos] <;> simp
  · rw [List.find?_cons_of_neg]
    · simp [h]
    · simpa using h

/-- The external CPC step bumps the company counter of the row's own
company identity and no other. -/
theorem cpcStep_company_cnt (env : CpcEnv) (st : CpcState) (idx : Nat) (r : RowR)
    (ident : String) :
    cntGet (cpcStep env st idx r).1.counts.company ident =
      cntGet st.counts.company ident +
        (if cpcCompanyVal env.m r = ident ∧ ident ≠ "" then 1 else 0) := by
  simp only [cpcStep, apply_ite Counts4.company, ite_self]
  by_cases hv : cpcCompanyVal env.m r = ""
  · simp only [hv, ne_eq, not_true_eq_false, if_false, ite_false]
    have h2 : ¬("" = ident ∧ ¬ident = "") := by
      rintro ⟨h1, h2⟩; exact h2 h1.symm
    simp [h2]
  · simp only [ne_eq, hv, not_false_eq_true, if_true, ite_true, cntGet_inc]
    by_cases hvi : cpcCompanyVal env.m r = ident
    · simp [hvi, (hvi ▸ hv : ¬ident = "")]
    · simp [hvi]

/-- The external CPC step's outcome: its company value, and its company
flag in terms of the pre-step counter (the running total includes the
current record). -/
theorem cpcStep_out_company (env : CpcEnv) (st : CpcState) (idx : Nat) (r : RowR) :
    (cpcStep env st idx r).2.companyVal = cpcCompanyVal env.m r ∧
    (cpcStep env st idx r).2.companyViol =
      (decide (cpcCompanyVal env.m r ≠ "") &&
        decide (env.limit < cntGet env.dCounts.company (cpcCompanyVal env.m r) +
          (cntGet st.counts.company (cpcCompanyVal env.m r) + 1))) := by
  simp only [cpcStep, apply_ite Counts4.company, ite_self]
  constructor
  · trivial
  · by_cases hv : cpcCompanyVal env.m r = ""
    · simp [hv]
    · simp [hv, cntGet_inc]

/-- The CPC lead loop emits one outcome per lead row. -/
theorem cpcLoop_length (env : CpcEnv) (rows : List RowR) :
    ∀ st idx, ((cpcLoop env st idx rows).2).length = rows.length := by
  induction rows with
  | nil => intro st idx; rfl
  | cons r rs ih => intro st idx; simp [cpcLoop, ih]

/-- Company-counter roll-up over the CPC lead loop. -/
theorem cpcLoop_counts (env : CpcEnv) (ident : String) (hid : ident ≠ "")
    (rows : List RowR) :
    ∀ st idx, cntGet (cpcLoop env st idx rows).1.counts.company ident =
      cntGet st.counts.company ident +
        rows.countP (fun r => cpcCompanyVal env.m r == ident) := by
  induction rows with
  | nil => intro st idx; simp [cpcLoop]
  | cons r rs ih =>
    intro st idx
    simp only [cpcLoop]
    rw [ih, cpcStep_company_cnt, List.countP_cons]
    by_cases hvr : cpcCompanyVal env.m r = ident
    · simp [hvr, hid]
      omega
    · simp [hvr]

/-- Per-occurrence flag law for the CPC lead loop: a lead row carrying the
identity is flagged on the company dimension iff its running total
(delivery + prior lead occurrences + itself) exceeds the limit. -/
theorem cpcLoop_flag (env : CpcEnv) (ident : String) (hid : ident ≠ "")
    (rows : List RowR) :
    ∀ st idx i, i < rows.length → cpcCompanyVal env.m (rows.getD i []) = ident →
      ((cpcLoop env st idx rows).2.getD i default).companyViol =
        decide (env.limit < cntGet env.dCounts.company ident +
          (cntGet st.counts.company ident +
            (rows.take i).countP (fun r => cpcCompanyVal env.m r == ident) + 1)) := by
  induction rows with
  | nil => intro st idx i hi; exact absurd hi (by simp)
  | cons r rs ih =>
    intro st idx i hi hval
    cases i with
    | zero =>
      simp only [cpcLoop, List.getD_cons_zero]
      simp only [List.getD_cons_zero] at hval
      rw [(cpcStep_out_company env st idx r).2, hval]
      simp only [List.take_zero, List.countP_nil]
      simp [hid]
    | succ j =>
      simp only [cpcLoop, List.getD_cons_succ]
      simp only [List.getD_cons_succ] at hval
      rw [ih (cpcStep env st idx r).1 (idx + 1) j (by simpa using hi) hval]
      rw [cpcStep_company_cnt, List.take_succ_cons, List.countP_cons]
      rw [decide_eq_decide]
      by_cases hvr : cpcCompanyVal env.m r = ident
      · simp only [hvr, hid, ne_eq, not_false_eq_true, and_self, if_true, beq_iff_eq,
          if_pos]
        omega
      · have : (cpcCompanyVal env.m r == ident) = false := by simpa using hvr
        simp only [this, if_false, Bool.false_eq_true]
        have h2 : ¬(cpcCompanyVal env.m r = ident ∧ ident ≠ "") := fun h => hvr h.1
        simp only [h2, if_false]
        omega

/-- Unrolling the CPC lead loop at the last row. -/
theorem cpcLoop_append (env : CpcEnv) (xs : List RowR) (x : RowR) :
    ∀ st idx, cpcLoop env st idx (xs ++ [x]) =
      ((cpcStep env (cpcLoop env st idx xs).1 (idx + xs.length) x).1,
       (cpcLoop env st idx xs).2 ++
         [(cpcStep env (cpcLoop env st idx xs).1 (idx + xs.length) x).2]) := by
  induction xs with
  | nil => intro st idx; simp [cpcLoop]
  | cons r rs ih =>
    intro st idx
    simp only [List.cons_append, cpcLoop, List.append_eq, List.length_cons]
    rw [ih]
    have h : idx + 1 + rs.length = idx + (rs.length + 1) := by omega
    rw [h]

/-- Counting law for the CPC lead loop: with delivery contribution K and
pre-loop counter c0, the number of company-flagged occurrences of an
identity among M lead occurrences is min M (K + c0 + M - limit). -/
theorem cpcLoop_company_count (env : CpcEnv) (ident : String) (hid : ident ≠ "")
    (rows : List RowR) (st : CpcState) (idx : Nat) :
    ((cpcLoop env st idx rows).2.filter
      (fun o => o.companyVal == ident && o.companyViol)).length =
      min (rows.countP (fun r => cpcCompanyVal env.m r == ident))
        (cntGet env.dCounts.company ident + cntGet st.counts.company ident +
          rows.countP (fun r => cpcCompanyVal env.m r == ident) - env.limit) := by
  induction rows using List.reverseRecOn with
  | nil => simp [cpcLoop]
  | append_singleton xs x ih =>
    rw [cpcLoop_append, List.countP_append, List.filter_append, List.length_append, ih]
    simp only [List.countP_cons, List.countP_nil, List.filter_cons, List.filter_nil]
    rw [(cpcStep_out_company env (cpcLoop env st idx xs).1 (idx + xs.length) x).1,
      (cpcStep_out_company env (cpcLoop env st idx xs).1 (idx + xs.length) x).2]
    by_cases hvr : cpcCompanyVal env.m x = ident
    · rw [hvr, cpcLoop_counts env ident hid xs st idx]
      by_cases hl : env.limit < cntGet env.dCounts.company ident +
          (cntGet st.counts.company ident +
            xs.countP (fun r => cpcCompanyVal env.m r == ident) + 1)
      · simp [hl, hid]
        omega
      · simp [hl, hid]
        omega
    · have hb : (cpcCompanyVal env.m x == ident) = false := by simpa using hvr
      simp [hb]

/-- Internal-CPC analogue of `cpcStep_company_cnt`. -/
theorem intCpcStep_company_cnt (env : IntCpcEnv) (st : IntCpcState) (idx : Nat)
    (r : RowR) (ident : String) :
    cntGet (intCpcStep env st idx r).1.counts.company ident =
      cntGet st.counts.company ident +
        (if cpcCompanyVal env.m r = ident ∧ ident ≠ "" then 1 else 0) := by
  simp only [intCpcStep, apply_ite Counts4.company, ite_self]
  by_cases hv : cpcCompanyVal env.m r = ""
  · simp only [hv, ne_eq, not_true_eq_false, if_false, ite_false]
    have h2 : ¬("" = ident ∧ ¬ident = "") := by
      rintro ⟨h1, h2⟩; exact h2 h1.symm
    simp [h2]
  · simp only [ne_eq, hv, not_false_eq_true, if_true, ite_true, cntGet_inc]
    by_cases hvi : cpcCompanyVal env.m r = ident
    · simp [hvi, (hvi ▸ hv : ¬ident = "")]
    · simp [hvi]

/-- Internal-CPC analogue of `cpcStep_out_company` (no delivery
contribution). -/
theorem intCpcStep_out_company (env : IntCpcEnv) (st : IntCpcState) (idx : Nat)
    (r : RowR) :
    (intCpcStep env st idx r).2.companyVal = cpcCompanyVal env.m r ∧
    (intCpcStep env st idx r).2.companyViol =
      (decide (cpcCompanyVal env.m r ≠ "") &&
        decide (env.limit <
          cntGet st.counts.company (cpcCompanyVal env.m r) + 1)) := by
  simp only [intCpcStep, apply_ite Counts4.company, ite_self]
  constructor
  · trivial
  · by_cases hv : cpcCompanyVal env.m r = ""
    · simp [hv]
    · simp [hv, cntGet_inc]

/-- Internal-CPC analogue of `cpcLoop_counts`. -/
theorem intCpcLoop_counts (env : IntCpcEnv) (ident : String) (hid : ident ≠ "")
    (rows : List RowR) :
    ∀ st idx, cntGet (intCpcLoop env st idx rows).1.counts.company ident =
      cntGet st.counts.company ident +
        rows.countP (fun r => cpcCompanyVal env.m r == ident) := by
  induction rows with
  | nil => intro st idx; simp [intCpcLoop]
  | cons r rs ih =>
    intro st idx
    simp only [intCpcLoop]
    rw [ih, intCpcStep_company_cnt, List.countP_cons]
    by_cases hvr : cpcCompanyVal env.m r = ident
    · simp [hvr, hid]
      omega
    · simp [hvr]

/-- Internal-CPC analogue of `cpcLoop_flag`. -/
theorem intCpcLoop_flag (env : IntCpcEnv) (ident : String) (hid : ident ≠ "")
    (rows : List RowR) :
    ∀ st idx i, i < rows.length → cpcCompanyVal env.m (rows.getD i []) = ident →
      ((intCpcLoop env st idx rows).2.getD i default).companyViol =
        decide (env.limit < cntGet st.counts.company ident +
          (rows.take i).countP (fun r => cpcCompanyVal env.m r == ident) + 1) := by
  induction rows with
  | nil => intro st idx i hi; exact absurd hi (by simp)
  | cons r rs ih =>
    intro st idx i hi hval
    cases i with
    | zero =>
      simp only [intCpcLoop, List.getD_cons_zero]
      simp only [List.getD_cons_zero] at hval
      rw [(intCpcStep_out_company env st idx r).2, hval]
      simp only [List.take_zero, List.countP_nil]
      simp [hid]
    | succ j =>
      simp only [intCpcLoop, List.getD_cons_succ]
      simp only [List.getD_cons_succ] at hval
      rw [ih (intCpcStep env st idx r).1 (idx + 1) j (by simpa using hi) hval]
      rw [intCpcStep_company_cnt, List.take_succ_cons, List.countP_cons]
      rw [decide_eq_decide]
      by_cases hvr : cpcCompanyVal env.m r = ident
      · simp only [hvr, hid, ne_eq, not_false_eq_true, and_self, if_true, beq_iff_eq,
          if_pos]
        omega
      · have hb : (cpcCompanyVal env.m r == ident) = false := by simpa using hvr
        simp only [hb, if_false, Bool.false_eq_true]
        have h2 : ¬(cpcCompanyVal env.m r = ident ∧ ident ≠ "") := fun h => hvr h.1
        simp only [h2, if_false]
        omega

/-- Internal-CPC analogue of `cpcLoop_append`. -/
theorem intCpcLoop_append (env : IntCpcEnv) (xs : List RowR) (x : RowR) :
    ∀ st idx, intCpcLoop env st idx (xs ++ [x]) =
      ((intCpcStep env (intCpcLoop env st idx xs).1 (idx + xs.length) x).1,
       (intCpcLoop env st idx xs).2 ++
         [(intCpcStep env (intCpcLoop env st idx xs).1 (idx + xs.length) x).2]) := by
  induction xs with
  | nil => intro st idx; simp [intCpcLoop]
  | cons r rs ih =>
    intro st idx
    simp only [List.cons_append, intCpcLoop, List.append_eq, List.length_cons]
    rw [ih]
    have h : idx + 1 + rs.length = idx + (rs.length + 1) := by omega
    rw [h]

/-- Internal-CPC analogue of `cpcLoop_company_count`. -/
theorem intCpcLoop_company_count (env : IntCpcEnv) (ident : String)
    (hid : ident ≠ "") (rows : List RowR) (st : IntCpcState) (idx : Nat) :
    ((intCpcLoop env st idx rows).2.filter
      (fun o => o.companyVal == ident && o.companyViol)).length =
      min (rows.countP (fun r => cpcCompanyVal env.m r == ident))
        (cntGet st.counts.company ident +
          rows.countP (fun r => cpcCompanyVal env.m r == ident) - env.limit) := by
  induction rows using List.reverseRecOn with
  | nil => simp [intCpcLoop]
  | append_singleton xs x ih =>
    rw [intCpcLoop_append, List.countP_append, List.filter_append, List.length_append,
      ih]
    simp only [List.countP_cons, List.countP_nil, List.filter_cons, List.filter_nil]
    rw [(intCpcStep_out_company env (intCpcLoop env st idx xs).1 (idx + xs.length) x).1,
      (intCpcStep_out_company env (intCpcLoop env st idx xs).1 (idx + xs.length) x).2]
    by_cases hvr : cpcCompanyVal env.m x = ident
    · rw [hvr, intCpcLoop_counts env ident hid xs st idx]
      by_cases hl : env.limit < cntGet st.counts.company ident +
          xs.countP (fun r => cpcCompanyVal env.m r == ident) + 1
      · simp [hl, hid]
        omega
      · simp [hl, hid]
        omega
    · have hb : (cpcCompanyVal env.m x == ident) = false := by simpa using hvr
      simp [hb]

/-- Claim C1 (amended, company dimension; the four counter dimensions are
symmetric): in a CPC run over ordered delivery-then-lead records, a lead
occurrence of an identity is flagged exactly when its running total
(delivery count + lead occurrences so far, including itself) exceeds the
limit; hence with delivery contribution K and M lead occurrences, exactly
min(M, K + M - limit) lead occurrences are flagged - which equals
max(0, N - limit) for N = K + M exactly when K ≤ limit.  The internal
variant is the K = 0 case, where the claimed max(0, N - limit) is exact. -/
theorem c1_amended (limit : Nat) (delivery lead : List RowR) (ws : Wsheet)
    (m : FieldMap) (headers : List String) (ident : String) (hid : ident ≠ "") :
    (∀ i, i < lead.length → cpcCompanyVal m (lead.getD i []) = ident →
      (((run_cpc_check limit delivery lead ws m headers).2.getD i default).companyViol =
        decide (limit < cntGet (_count_delivery_occurrences delivery m).company ident +
          (lead.take i).countP (fun r => cpcCompanyVal m r == ident) + 1))) ∧
    ((run_cpc_check limit delivery lead ws m headers).2.filter
        (fun o => o.companyVal == ident && o.companyViol)).length =
      min (lead.countP (fun r => cpcCompanyVal m r == ident))
        (cntGet (_count_delivery_occurrences delivery m).company ident +
          lead.countP (fun r => cpcCompanyVal m r == ident) - limit) ∧
    (∀ i, i < lead.length → cpcCompanyVal m (lead.getD i []) = ident →
      (((run_internal_cpc_check limit lead ws m headers).2.getD i default).companyViol =
        decide (limit < (lead.take i).countP (fun r => cpcCompanyVal m r == ident) + 1))) ∧
    ((run_internal_cpc_check limit lead ws m headers).2.filter
        (fun o => o.companyVal == ident && o.companyViol)).length =
      min (lead.countP (fun r => cpcCompanyVal m r == ident))
        (lead.countP (fun r => cpcCompanyVal m r == ident) - limit) := by
  have h0 : cntGet emptyCounts4.company ident = 0 := rfl
  refine ⟨?_, ?_, ?_, ?_⟩
  · intro i hi hval
    simp only [run_cpc_check]
    rw [cpcLoop_flag _ ident hid lead _ 2 i hi hval]
    rw [decide_eq_decide, h0]
    simp only [CpcEnv.dCounts, CpcEnv.limit]
    omega
  · simp only [run_cpc_check]
    rw [cpcLoop_company_count _ ident hid lead _ 2, h0]
    simp only [CpcEnv.m, CpcEnv.dCounts, CpcEnv.limit, Nat.add_zero]
  · intro i hi hval
    simp only [run_internal_cpc_check]
    rw [intCpcLoop_flag _ ident hid lead _ 2 i hi hval]
    rw [decide_eq_decide, h0]
    simp only [IntCpcEnv.m, IntCpcEnv.limit]
    omega
  · simp only [run_internal_cpc_check]
    rw [intCpcLoop_company_count _ ident hid lead _ 2, h0]
    simp only [IntCpcEnv.m, IntCpcEnv.limit, Nat.zero_add]

/-- Witness for C1: the counting law evaluated on the concrete
three-delivery/one-lead scenario. -/
theorem c1_witness :
    ("x" ≠ "") ∧
    ((run_cpc_check 2 c1Delivery c1Lead [] c1Map acmeHeaders).2.filter
        (fun o => o.companyVal == "x" && o.companyViol)).length =
      min (c1Lead.countP (fun r => cpcCompanyVal c1Map r == "x"))
        (cntGet (_count_delivery_occurrences c1Delivery c1Map).company "x" +
          c1Lead.countP (fun r => cpcCompanyVal c1Map r == "x") - 2) :=
  ⟨by decide,
   (c1_amended 2 c1Delivery c1Lead [] c1Map acmeHeaders "x" (by decide)).2.1⟩

/-- A `String.mk` is empty exactly when its character list is. -/
theorem mkStr_eq_empty_iff (l : List Char) : String.mk l = "" ↔ l = [] := by
  constructor
  · intro h
    simpa using congrArg String.data h
  · intro h
    subst h
    rfl

/-- Lowercasing preserves non-emptiness. -/
theorem pyLower_ne_empty {s : String} (h : s ≠ "") : pyLower s ≠ "" := by
  unfold pyLower lowerL
  rw [ne_eq, mkStr_eq_empty_iff, List.map_eq_nil_iff]
  intro hd
  exact h (by cases s with | mk l => simpa [mkStr_eq_empty_iff] using hd)

/-- A non-empty domain always has a non-empty root (the source falls back
to the lowercased input when the extraction is empty). -/
theorem extract_root_domain_ne_empty {s : String} (h : s ≠ "") :
    extract_root_domain s ≠ "" := by
  unfold extract_root_domain
  rw [if_neg h]
  simp only []
  by_cases hc : (dropPublicSuffixLabels
      ((splitAllSep ['.'] (pyLower s).data).map String.mk)).getLastD "" = ""
  · rw [if_pos hc]
    exact pyLower_ne_empty h
  · rw [if_neg hc]
    exact hc

/-- The external CPC step bumps the exact-domain counter of the row's own
domain value and no other. -/
theorem cpcStep_domain_cnt (env : CpcEnv) (st : CpcState) (idx : Nat) (r : RowR)
    (d : String) :
    cntGet (cpcStep env st idx r).1.counts.domain d =
      cntGet st.counts.domain d +
        (if cpcDomainVal env.m r = d ∧ d ≠ "" then 1 else 0) := by
  simp only [cpcStep, apply_ite Counts4.domain, ite_self]
  by_cases hv : cpcDomainVal env.m r = ""
  · simp only [hv, ne_eq, not_true_eq_false, if_false, ite_false]
    have h2 : ¬("" = d ∧ ¬d = "") := by rintro ⟨h1, h2⟩; exact h2 h1.symm
    simp [h2]
  · simp only [ne_eq, hv, not_false_eq_true, if_true, ite_true, cntGet_inc]
    by_cases hvi : cpcDomainVal env.m r = d
    · simp [hvi, (hvi ▸ hv : ¬d = "")]
    · simp [hvi]

/-- The external CPC step bumps the root-domain counter of the row's own
root value and no other. -/
theorem cpcStep_root_cnt (env : CpcEnv) (st : CpcState) (idx : Nat) (r : RowR)
    (k : String) :
    cntGet (cpcStep env st idx r).1.counts.root_domain k =
      cntGet st.counts.root_domain k +
        (if cpcRootVal env.m r = k ∧ k ≠ "" then 1 else 0) := by
  simp only [cpcStep, apply_ite Counts4.root_domain, ite_self]
  by_cases hv : cpcRootVal env.m r = ""
  · simp only [hv, ne_eq, not_true_eq_false, if_false, ite_false]
    have h2 : ¬("" = k ∧ ¬k = "") := by rintro ⟨h1, h2⟩; exact h2 h1.symm
    simp [h2]
  · simp only [ne_eq, hv, not_false_eq_true, if_true, ite_true, cntGet_inc]
    by_cases hvi : cpcRootVal env.m r = k
    · simp [hvi, (hvi ▸ hv : ¬k = "")]
    · simp [hvi]

/-- The external CPC step's outcome on the domain dimensions: the root
flag and the exact-domain flag (which carries the negated root flag, the
elif of the source). -/
theorem cpcStep_out_domroot (env : CpcEnv) (st : CpcState) (idx : Nat) (r : RowR) :
    (cpcStep env st idx r).2.rootViol =
      (decide (cpcRootVal env.m r ≠ "") && decide (env.limit <
        cntGet env.dCounts.root_domain (cpcRootVal env.m r) +
          (cntGet st.counts.root_domain (cpcRootVal env.m r) + 1))) ∧
    (cpcStep env st idx r).2.domViol =
      (!(decide (cpcRootVal env.m r ≠ "") && decide (env.limit <
          cntGet env.dCounts.root_domain (cpcRootVal env.m r) +
            (cntGet st.counts.root_domain (cpcRootVal env.m r) + 1))) &&
        (decide (cpcDomainVal env.m r ≠ "") && decide (env.limit <
          cntGet env.dCounts.domain (cpcDomainVal env.m r) +
            (cntGet st.counts.domain (cpcDomainVal env.m r) + 1)))) := by
  simp only [cpcStep, apply_ite Counts4.domain, apply_ite Counts4.root_domain, ite_self]
  by_cases hr : cpcRootVal env.m r = "" <;> by_cases hd : cpcDomainVal env.m r = "" <;>
    simp [hr, hd, cntGet_inc]

/-- Length of a violation list assembled from four flags in the source's
shape. -/
theorem violLen (a b c d : Bool) (s1 s2 s3 s4 : String) :
    ((if a then [s1] else []) ++ (if b then [s2] else []) ++
      (if c then [s3] else if d then [s4] else [])).length =
      (if a then 1 else 0) + (if b then 1 else 0) + (if c || d then 1 else 0) := by
  cases a <;> cases b <;> cases c <;> cases d <;> simp

/-- The external CPC step's message list has exactly one message per fired
flag (root and exact-domain sharing one slot). -/
theorem cpcStep_out_len (env : CpcEnv) (st : CpcState) (idx : Nat) (r : RowR) :
    (cpcStep env st idx r).2.violations.length =
      (if (cpcStep env st idx r).2.companyViol then 1 else 0) +
      (if (cpcStep env st idx r).2.talViol then 1 else 0) +
      (if (cpcStep env st idx r).2.rootViol || (cpcStep env st idx r).2.domViol
        then 1 else 0) := by
  simp only [cpcStep]
  exact violLen _ _ _ _ _ _ _ _

/-- The running domain-vs-root comparison: for every non-empty exact
domain, its (delivery + lead) total never exceeds its root's total. -/
def sumDomInv (dc c : Counts4) : Prop :=
  ∀ d, d ≠ "" → cntGet dc.domain d + cntGet c.domain d ≤
    cntGet dc.root_domain (extract_root_domain d) +
      cntGet c.root_domain (extract_root_domain d)

/-- `sumDomInv` is preserved by the external CPC step. -/
theorem cpcStep_sumDomInv (env : CpcEnv) (st : CpcState) (idx : Nat) (r : RowR)
    (h : sumDomInv env.dCounts st.counts) :
    sumDomInv env.dCounts (cpcStep env st idx r).1.counts := by
  intro d hd
  rw [cpcStep_domain_cnt, cpcStep_root_cnt]
  have hle := h d hd
  by_cases hvd : cpcDomainVal env.m r = d
  · have hroot : cpcRootVal env.m r = extract_root_domain d := by
      unfold cpcRootVal
      rw [hvd, if_neg hd]
    have hrne : extract_root_domain d ≠ "" := extract_root_domain_ne_empty hd
    simp only [hvd, hd, ne_eq, not_false_eq_true, and_self, if_true, hroot, hrne,
      if_pos]
    omega
  · have h2 : ¬(cpcDomainVal env.m r = d ∧ d ≠ "") := fun hh => hvd hh.1
    simp only [h2, if_false]
    by_cases h3 : cpcRootVal env.m r = extract_root_domain d ∧ extract_root_domain d ≠ ""
    · simp only [h3, if_true, if_pos]
      omega
    · simp only [h3, if_false]
      omega

/-- Under `sumDomInv`, the exact-domain flag can never fire: any exact
domain over the limit puts its root over the limit first, and the elif
then suppresses the exact-domain message. -/
theorem cpcStep_domViol_false (env : CpcEnv) (st : CpcState) (idx : Nat) (r : RowR)
    (h : sumDomInv env.dCounts st.counts) :
    (cpcStep env st idx r).2.domViol = false := by
  rw [(cpcStep_out_domroot env st idx r).2]
  by_cases hd : cpcDomainVal env.m r = ""
  · simp [hd]
  · have hroot : cpcRootVal env.m r = extract_root_domain (cpcDomainVal env.m r) := by
      unfold cpcRootVal
      rw [if_neg hd]
    have hrne : cpcRootVal env.m r ≠ "" :=
      hroot ▸ extract_root_domain_ne_empty hd
    have hle := h (cpcDomainVal env.m r) hd
    by_cases hl : env.limit < cntGet env.dCounts.domain (cpcDomainVal env.m r) +
        (cntGet st.counts.domain (cpcDomainVal env.m r) + 1)
    · have hl2 : env.limit < cntGet env.dCounts.root_domain (cpcRootVal env.m r) +
          (cntGet st.counts.root_domain (cpcRootVal env.m r) + 1) := by
        rw [hroot]
        omega
      simp [hrne, hl2]
    · simp [hl]

/-- Along the external CPC lead loop, no row's exact-domain flag ever
fires (the outcome list's default entry also satisfies this, so no index
bound is needed). -/
theorem cpcLoop_domViol (env : CpcEnv) (rows : List RowR) :
    ∀ st idx i, sumDomInv env.dCounts st.counts →
      ((cpcLoop env st idx rows).2.getD i default).domViol = false := by
  induction rows with
  | nil => intro st idx i h; cases i <;> rfl
  | cons r rs ih =>
    intro st idx i h
    cases i with
    | zero =>
      simp only [cpcLoop, List.getD_cons_zero]
      exact cpcStep_domViol_false env st idx r h
    | succ j =>
      simp only [cpcLoop, List.getD_cons_succ]
      exact ih (cpcStep env st idx r).1 (idx + 1) j (cpcStep_sumDomInv env st idx r h)

/-- Along the external CPC lead loop, every row's message list has
exactly one message per fired flag. -/
theorem cpcLoop_len (env : CpcEnv) (rows : List RowR) :
    ∀ st idx i,
      ((cpcLoop env st idx rows).2.getD i default).violations.length =
        (if ((cpcLoop env st idx rows).2.getD i default).companyViol then 1 else 0) +
        (if ((cpcLoop env st idx rows).2.getD i default).talViol then 1 else 0) +
        (if ((cpcLoop env st idx rows).2.getD i default).rootViol ∨
            ((cpcLoop env st idx rows).2.getD i default).domViol then 1 else 0) := by
  induction rows with
  | nil => intro st idx i; cases i <;> rfl
  | cons r rs ih =>
    intro st idx i
    cases i with
    | zero =>
      simp only [cpcLoop, List.getD_cons_zero]
      rw [cpcStep_out_len env st idx r]
      congr 1
      simp [Bool.or_eq_true]
    | succ j =>
      simp only [cpcLoop, List.getD_cons_succ]
      exact ih (cpcStep env st idx r).1 (idx + 1) j

/-- One delivery row bumps the exact-domain counter of its own domain
value only. -/
theorem count_delivery_row_domain (m : FieldMap) (c : Counts4) (r : RowR)
    (d : String) :
    cntGet (count_delivery_row m c r).domain d =
      cntGet c.domain d + (if delDomainVal m r = d ∧ d ≠ "" then 1 else 0) := by
  simp only [count_delivery_row, apply_ite Counts4.domain, ite_self]
  by_cases hv : delDomainVal m r = ""
  · simp only [hv, ne_eq, not_true_eq_false, if_false, ite_false]
    have h2 : ¬("" = d ∧ ¬d = "") := by rintro ⟨h1, h2⟩; exact h2 h1.symm
    simp [h2]
  · simp only [ne_eq, hv, not_false_eq_true, if_true, ite_true]
    by_cases hroot : extract_root_domain (delDomainVal m r) = "" <;>
      · simp only [hroot, ne_eq, not_true_eq_false, if_false, ite_false,
          not_false_eq_true, if_true, ite_true, cntGet_inc]
        by_cases hvi : delDomainVal m r = d
        · simp [hvi, (hvi ▸ hv : ¬d = "")]
        · simp [hvi]

/-- One delivery row bumps the root-domain counter of its own root value
only. -/
theorem count_delivery_row_root (m : FieldMap) (c : Counts4) (r : RowR)
    (k : String) :
    cntGet (count_delivery_row m c r).root_domain k =
      cntGet c.root_domain k +
        (if delDomainVal m r ≠ "" ∧ extract_root_domain (delDomainVal m r) = k
          then 1 else 0) := by
  simp only [count_delivery_row, apply_ite Counts4.root_domain, ite_self]
  by_cases hv : delDomainVal m r = ""
  · simp only [hv, ne_eq, not_true_eq_false, if_false, ite_false]
    simp
  · have hroot : extract_root_domain (delDomainVal m r) ≠ "" :=
      extract_root_domain_ne_empty hv
    simp only [ne_eq, hv, not_false_eq_true, if_true, ite_true, hroot, cntGet_inc]
    by_cases hvi : extract_root_domain (delDomainVal m r) = k
    · simp [hvi]
    · simp [hvi]

/-- The delivery counter table satisfies the domain-vs-root comparison. -/
theorem delivery_domInv (delivery : List RowR) (m : FieldMap) :
    ∀ d, d ≠ "" →
      cntGet (_count_delivery_occurrences delivery m).domain d ≤
        cntGet (_count_delivery_occurrences delivery m).root_domain
          (extract_root_domain d) := by
  unfold _count_delivery_occurrences
  induction delivery using List.reverseRecOn with
  | nil => intro d hd; simp [emptyCounts4, cntGet]
  | append_singleton xs x ih =>
    intro d hd
    rw [List.foldl_append, List.foldl_cons, List.foldl_nil]
    rw [count_delivery_row_domain, count_delivery_row_root]
    have hle := ih d hd
    by_cases hvd : delDomainVal m x = d
    · have hrne : extract_root_domain d ≠ "" := extract_root_domain_ne_empty hd
      simp only [hvd, hd, ne_eq, not_false_eq_true, and_self, if_true, if_pos]
      omega
    · have h2 : ¬(delDomainVal m x = d ∧ d ≠ "") := fun hh => hvd hh.1
      simp only [h2, if_false]
      by_cases h3 : delDomainVal m x ≠ "" ∧
          extract_root_domain (delDomainVal m x) = extract_root_domain d
      · simp only [h3, if_true, if_pos]
        omega
      · simp only [h3, if_false]
        omega

/-- Internal analogue of `cpcStep_domain_cnt`. -/
theorem intCpcStep_domain_cnt (env : IntCpcEnv) (st : IntCpcState) (idx : Nat)
    (r : RowR) (d : String) :
    cntGet (intCpcStep env st idx r).1.counts.domain d =
      cntGet st.counts.domain d +
        (if cpcDomainVal env.m r = d ∧ d ≠ "" then 1 else 0) := by
  simp only [intCpcStep, apply_ite Counts4.domain, ite_self]
  by_cases hv : cpcDomainVal env.m r = ""
  · simp only [hv, ne_eq, not_true_eq_false, if_false, ite_false]
    have h2 : ¬("" = d ∧ ¬d = "") := by rintro ⟨h1, h2⟩; exact h2 h1.symm
    simp [h2]
  · simp only [ne_eq, hv, not_false_eq_true, if_true, ite_true, cntGet_inc]
    by_cases hvi : cpcDomainVal env.m r = d
    · simp [hvi, (hvi ▸ hv : ¬d = "")]
    · simp [hvi]

/-- Internal analogue of `cpcStep_root_cnt`. -/
theorem intCpcStep_root_cnt (env : IntCpcEnv) (st : IntCpcState) (idx : Nat)
    (r : RowR) (k : String) :
    cntGet (intCpcStep env st idx r).1.counts.root_domain k =
      cntGet st.counts.root_domain k +
        (if cpcRootVal env.m r = k ∧ k ≠ "" then 1 else 0) := by
  simp only [intCpcStep, apply_ite Counts4.root_domain, ite_self]
  by_cases hv : cpcRootVal env.m r = ""
  · simp only [hv, ne_eq, not_true_eq_false, if_false, ite_false]
    have h2 : ¬("" = k ∧ ¬k = "") := by rintro ⟨h1, h2⟩; exact h2 h1.symm
    simp [h2]
  · simp only [ne_eq, hv, not_false_eq_true, if_true, ite_true, cntGet_inc]
    by_cases hvi : cpcRootVal env.m r = k
    · simp [hvi, (hvi ▸ hv : ¬k = "")]
    · simp [hvi]

/-- Internal analogue of `cpcStep_out_domroot`. -/
theorem intCpcStep_out_domroot (env : IntCpcEnv) (st : IntCpcState) (idx : Nat)
    (r : RowR) :
    (intCpcStep env st idx r).2.rootViol =
      (decide (cpcRootVal env.m r ≠ "") && decide (env.limit <
        cntGet st.counts.root_domain (cpcRootVal env.m r) + 1)) ∧
    (intCpcStep env st idx r).2.domViol =
      (!(decide (cpcRootVal env.m r ≠ "") && decide (env.limit <
          cntGet st.counts.root_domain (cpcRootVal env.m r) + 1)) &&
        (decide (cpcDomainVal env.m r ≠ "") && decide (env.limit <
          cntGet st.counts.domain (cpcDomainVal env.m r) + 1))) := by
  simp only [intCpcStep, apply_ite Counts4.domain, apply_ite Counts4.root_domain,
    ite_self]
  by_cases hr : cpcRootVal env.m r = "" <;> by_cases hd : cpcDomainVal env.m r = "" <;>
    simp [hr, hd, cntGet_inc]

/-- Internal analogue of `cpcStep_out_len`. -/
theorem intCpcStep_out_len (env : IntCpcEnv) (st : IntCpcState) (idx : Nat)
    (r : RowR) :
    (intCpcStep env st idx r).2.violations.length =
      (if (intCpcStep env st idx r).2.companyViol then 1 else 0) +
      (if (intCpcStep env st idx r).2.talViol then 1 else 0) +
      (if (intCpcStep env st idx r).2.rootViol || (intCpcStep env st idx r).2.domViol
        then 1 else 0) := by
  simp only [intCpcStep]
  exact violLen _ _ _ _ _ _ _ _

/-- The lead-only domain-vs-root comparison. -/
def domInv (c : Counts4) : Prop :=
  ∀ d, d ≠ "" → cntGet c.domain d ≤ cntGet c.root_domain (extract_root_domain d)

/-- `domInv` is preserved by the internal CPC step. -/
theorem intCpcStep_domInv (env : IntCpcEnv) (st : IntCpcState) (idx : Nat)
    (r : RowR) (h : domInv st.counts) :
    domInv (intCpcStep env st idx r).1.counts := by
  intro d hd
  rw [intCpcStep_domain_cnt, intCpcStep_root_cnt]
  have hle := h d hd
  by_cases hvd : cpcDomainVal env.m r = d
  · have hroot : cpcRootVal env.m r = extract_root_domain d := by
      unfold cpcRootVal
      rw [hvd, if_neg hd]
    have hrne : extract_root_domain d ≠ "" := extract_root_domain_ne_empty hd
    simp only [hvd, hd, ne_eq, not_false_eq_true, and_self, if_true, hroot, hrne,
      if_pos]
    omega
  · have h2 : ¬(cpcDomainVal env.m r = d ∧ d ≠ "") := fun hh => hvd hh.1
    simp only [h2, if_false]
    by_cases h3 : cpcRootVal env.m r = extract_root_domain d ∧ extract_root_domain d ≠ ""
    · simp only [h3, if_true, if_pos]
      omega
    · simp only [h3, if_false]
      omega

/-- Internal analogue of `cpcStep_domViol_false`. -/
theorem intCpcStep_domViol_false (env : IntCpcEnv) (st : IntCpcState) (idx : Nat)
    (r : RowR) (h : domInv st.counts) :
    (intCpcStep env st idx r).2.domViol = false := by
  rw [(intCpcStep_out_domroot env st idx r).2]
  by_cases hd : cpcDomainVal env.m r = ""
  · simp [hd]
  · have hroot : cpcRootVal env.m r = extract_root_domain (cpcDomainVal env.m r) := by
      unfold cpcRootVal
      rw [if_neg hd]
    have hrne : cpcRootVal env.m r ≠ "" := hroot ▸ extract_root_domain_ne_empty hd
    have hle := h (cpcDomainVal env.m r) hd
    by_cases hl : env.limit < cntGet st.counts.domain (cpcDomainVal env.m r) + 1
    · have hl2 : env.limit < cntGet st.counts.root_domain (cpcRootVal env.m r) + 1 := by
        rw [hroot]
        omega
      simp [hrne, hl2]
    · simp [hl]

/-- Internal analogue of `cpcLoop_domViol`. -/
theorem intCpcLoop_domViol (env : IntCpcEnv) (rows : List RowR) :
    ∀ st idx i, domInv st.counts →
      ((intCpcLoop env st idx rows).2.getD i default).domViol = false := by
  induction rows with
  | nil => intro st idx i h; cases i <;> rfl
  | cons r rs ih =>
    intro st idx i h
    cases i with
    | zero =>
      simp only [intCpcLoop, List.getD_cons_zero]
      exact intCpcStep_domViol_false env st idx r h
    | succ j =>
      simp only [intCpcLoop, List.getD_cons_succ]
      exact ih (intCpcStep env st idx r).1 (idx + 1) j (intCpcStep_domInv env st idx r h)

/-- Internal analogue of `cpcLoop_len`. -/
theorem intCpcLoop_len (env : IntCpcEnv) (rows : List RowR) :
    ∀ st idx i,
      ((intCpcLoop env st idx rows).2.getD i default).violations.length =
        (if ((intCpcLoop env st idx rows).2.getD i default).companyViol then 1 else 0) +
        (if ((intCpcLoop env st idx rows).2.getD i default).talViol then 1 else 0) +
        (if ((intCpcLoop env st idx rows).2.getD i default).rootViol ∨
            ((intCpcLoop env st idx rows).2.getD i default).domViol then 1 else 0) := by
  induction rows with
  | nil => intro st idx i; cases i <;> rfl
  | cons r rs ih =>
    intro st idx i
    cases i with
    | zero =>
      simp only [intCpcLoop, List.getD_cons_zero]
      rw [intCpcStep_out_len env st idx r]
      congr 1
      simp [Bool.or_eq_true]
    | succ j =>
      simp only [intCpcLoop, List.getD_cons_succ]
      exact ih (intCpcStep env st idx r).1 (idx + 1) j

/-- In every external CPC run the exact-domain flag never fires. -/
theorem run_cpc_domViol (limit : Nat) (delivery lead : List RowR) (ws : Wsheet)
    (m : FieldMap) (headers : List String) (i : Nat) :
    ((run_cpc_check limit delivery lead ws m headers).2.getD i default).domViol =
      false := by
  simp only [run_cpc_check]
  refine cpcLoop_domViol _ lead _ 2 i ?_
  show sumDomInv (_count_delivery_occurrences delivery m) emptyCounts4
  intro d hd
  have h0 : cntGet emptyCounts4.domain d = 0 := rfl
  have h1 : cntGet emptyCounts4.root_domain (extract_root_domain d) = 0 := rfl
  rw [h0, h1]
  have := delivery_domInv delivery m d hd
  omega

/-- In every internal CPC run the exact-domain flag never fires. -/
theorem run_int_cpc_domViol (limit : Nat) (lead : List RowR) (ws : Wsheet)
    (m : FieldMap) (headers : List String) (i : Nat) :
    ((run_internal_cpc_check limit lead ws m headers).2.getD i default).domViol =
      false := by
  simp only [run_internal_cpc_check]
  refine intCpcLoop_domViol _ lead _ 2 i ?_
  show domInv emptyCounts4
  intro d hd
  have h0 : cntGet emptyCounts4.domain d = 0 := rfl
  have h1 : cntGet emptyCounts4.root_domain (extract_root_domain d) = 0 := rfl
  rw [h0, h1]

/-- Claim C3 (amended): in every CPC run (external or internal), per lead
record: a root-domain violation suppresses ONLY the exact-domain legacy
violation (the elif); plain-company and TAL legacy violations are never
suppressed, each fired flag contributing exactly one kept message (so at
most three are kept); in fact the exact-domain flag never fires at all,
because an exact domain over the limit always puts its root domain over
the limit first. -/
theorem c3_amended (limit : Nat) (delivery lead : List RowR) (ws : Wsheet)
    (m : FieldMap) (headers : List String) (i : Nat) :
    (((run_cpc_check limit delivery lead ws m headers).2.getD i default).domViol =
      false ∧
     ((run_cpc_check limit delivery lead ws m headers).2.getD i default).violations.length =
      (if ((run_cpc_check limit delivery lead ws m headers).2.getD i default).companyViol
        then 1 else 0) +
      (if ((run_cpc_check limit delivery lead ws m headers).2.getD i default).talViol
        then 1 else 0) +
      (if ((run_cpc_check limit delivery lead ws m headers).2.getD i default).rootViol
        then 1 else 0)) ∧
    (((run_internal_cpc_check limit lead ws m headers).2.getD i default).domViol =
      false ∧
     ((run_internal_cpc_check limit lead ws m headers).2.getD i default).violations.length =
      (if ((run_internal_cpc_check limit lead ws m headers).2.getD i default).companyViol
        then 1 else 0) +
      (if ((run_internal_cpc_check limit lead ws m headers).2.getD i default).talViol
        then 1 else 0) +
      (if ((run_internal_cpc_check limit lead ws m headers).2.getD i default).rootViol
        then 1 else 0)) := by
  refine ⟨⟨run_cpc_domViol limit delivery lead ws m headers i, ?_⟩,
    ⟨run_int_cpc_domViol limit lead ws m headers i, ?_⟩⟩
  · have hd := run_cpc_domViol limit delivery lead ws m headers i
    simp only [run_cpc_check] at hd ⊢
    rw [cpcLoop_len _ lead _ 2 i, hd]
    simp
  · have hd := run_int_cpc_domViol limit lead ws m headers i
    simp only [run_internal_cpc_check] at hd ⊢
    rw [intCpcLoop_len _ lead _ 2 i, hd]
    simp

instance : Inhabited PhoneOut := ⟨⟨"", "", none⟩⟩

instance : Inhabited DupOut := ⟨⟨false, "", "", false, false, []⟩⟩

instance : Inhabited IntDupOut := ⟨⟨false, "", "", false, []⟩⟩

/-- A phone step never flags a row whose normalized phone is absent from
the first-seen map. -/
theorem phoneStep_conflict_none (m : FieldMap) (col : Nat) (st : PhoneState)
    (idx : Nat) (r : RowR)
    (h : st.map.find? (fun e => e.1 == phoneVal m r) = none) :
    (phoneStep m col st idx r).2.conflict = none := by
  by_cases hp : phoneVal m r = ""
  · simp [phoneStep, hp]
  · by_cases hi : get_company_identifier r ((mapGet m "lead_company").getD NA)
        ((mapGet m "lead_domain").getD NA) = ""
    · simp [phoneStep, hp, hi]
    · simp [phoneStep, hp, hi, h]

/-- A phone step leaves a phone key out of the map when the row's own
phone differs from it. -/
theorem phoneStep_map_preserve (m : FieldMap) (col : Nat) (st : PhoneState)
    (idx : Nat) (r : RowR) (P : String) (hne : phoneVal m r ≠ P)
    (h : st.map.find? (fun e => e.1 == P) = none) :
    (phoneStep m col st idx r).1.map.find? (fun e => e.1 == P) = none := by
  by_cases hp : phoneVal m r = ""
  · simp [phoneStep, hp, h]
  · by_cases hi : get_company_identifier r ((mapGet m "lead_company").getD NA)
        ((mapGet m "lead_domain").getD NA) = ""
    · simp [phoneStep, hp, hi, h]
    · simp only [phoneStep, hp, hi, if_false, ite_false]
      rcases hfind : st.map.find? (fun e => e.1 == phoneVal m r) with _ | info
      · simp only [hfind, Option.map_none', if_false, ite_false]
        rw [List.find?_cons_of_neg]
        · exact h
        · simpa using hne
      · simp only [hfind, Option.map_some']
        split_ifs <;> simp [h, hp, hi, hfind]

/-- Along the internal phone loop, a row whose phone no earlier row
shares is never flagged. -/
theorem phoneLoop_first (m : FieldMap) (col : Nat) (rows : List RowR) :
    ∀ st idx i,
      (∀ p, p < i → phoneVal m (rows.getD p []) ≠ phoneVal m (rows.getD i [])) →
      st.map.find? (fun e => e.1 == phoneVal m (rows.getD i [])) = none →
      ((phoneLoop m col st idx rows).2.getD i default).conflict = none := by
  induction rows with
  | nil => intro st idx i hdist hmap; cases i <;> rfl
  | cons r rs ih =>
    intro st idx i hdist hmap
    cases i with
    | zero =>
      simp only [phoneLoop, List.getD_cons_zero]
      exact phoneStep_conflict_none m col st idx r (by simpa using hmap)
    | succ j =>
      simp only [phoneLoop, List.getD_cons_succ]
      refine ih (phoneStep m col st idx r).1 (idx + 1) j ?_ ?_
      · intro p hp
        have := hdist (p + 1) (by omega)
        simpa using this
      · refine phoneStep_map_preserve m col st idx r _ ?_ (by simpa using hmap)
        have := hdist 0 (by omega)
        simpa using this

/-- Membership in `sInsert` comes from the set or the new element. -/
theorem mem_sInsert {s : List String} {y x : String} (h : x ∈ sInsert s y) :
    x ∈ s ∨ x = y := by
  unfold sInsert at h
  split at h
  · exact Or.inl h
  · rcases List.mem_append.mp h with h | h
    · exact Or.inl h
    · exact Or.inr (List.mem_singleton.mp h)

/-- A duplicate step never reports an internal email duplicate when the
row's email is not among the accumulated lead signatures. -/
theorem dupStep_noIntEmail (env : DupEnv) (st : DupState) (idx : Nat) (r : RowR)
    (h : st.leadEmails.contains (dupEmailVal env.m r) = false) :
    "Internal duplicate email" ∉ (dupStep env st idx r).2.reasons := by
  by_cases hskip : wsGet st.ws idx env.colStatus = "Disqualified"
  · simp [dupStep, hskip]
  · simp only [dupStep, hskip, if_false, ite_false]
    split_ifs <;> first
      | decide
      | (exfalso; simp_all)

/-- A duplicate step never reports an internal LinkedIn duplicate when
the row's link is not among the accumulated lead signatures. -/
theorem dupStep_noIntLink (env : DupEnv) (st : DupState) (idx : Nat) (r : RowR)
    (h : st.leadLinkedin.contains (dupLinkVal env.m r) = false) :
    "Internal duplicate LinkedIn" ∉ (dupStep env st idx r).2.reasons := by
  by_cases hskip : wsGet st.ws idx env.colStatus = "Disqualified"
  · simp [dupStep, hskip]
  · simp only [dupStep, hskip, if_false, ite_false]
    split_ifs <;> first
      | decide
      | (exfalso; simp_all)

/-- A duplicate step adds at most the row's own email to the signature
set, and adds nothing when the row is skipped. -/
theorem dupStep_emails_preserve (env : DupEnv) (st : DupState) (idx : Nat)
    (r : RowR) (E : String) (hE : E ∉ st.leadEmails)
    (hcase : E ≠ dupEmailVal env.m r ∨ wsGet st.ws idx env.colStatus = "Disqualified") :
    E ∉ (dupStep env st idx r).1.leadEmails := by
  by_cases hskip : wsGet st.ws idx env.colStatus = "Disqualified"
  · simpa [dupStep, hskip] using hE
  · have hne : E ≠ dupEmailVal env.m r := hcase.resolve_right hskip
    simp only [dupStep, hskip, if_false, ite_false]
    by_cases hv : dupEmailVal env.m r = ""
    · simpa [hv] using hE
    · simp only [hv, ne_eq, not_false_eq_true, if_true, ite_true]
      intro hmem
      rcases mem_sInsert hmem with hmem | hmem
      · exact hE hmem
      · exact hne hmem

/-- Link analogue of `dupStep_emails_preserve`. -/
theorem dupStep_links_preserve (env : DupEnv) (st : DupState) (idx : Nat)
    (r : RowR) (E : String) (hE : E ∉ st.leadLinkedin)
    (hcase : E ≠ dupLinkVal env.m r ∨ wsGet st.ws idx env.colStatus = "Disqualified") :
    E ∉ (dupStep env st idx r).1.leadLinkedin := by
  by_cases hskip : wsGet st.ws idx env.colStatus = "Disqualified"
  · simpa [dupStep, hskip] using hE
  · have hne : E ≠ dupLinkVal env.m r := hcase.resolve_right hskip
    simp only [dupStep, hskip, if_false, ite_false]
    by_cases hv : dupLinkVal env.m r = ""
    · simpa [hv] using hE
    · simp only [hv, ne_eq, not_false_eq_true, if_true, ite_true]
      intro hmem
      rcases mem_sInsert hmem with hmem | hmem
      · exact hE hmem
      · exact hne hmem

/-- The violation writer touches only its own row. -/
theorem disqualify_ws_other (ws : Wsheet) (row cs cr cc : Nat)
    (reason comment : String) (rr c : Nat) (h : rr ≠ row) :
    wsGet (disqualify_lead ws row cs cr cc reason comment) rr c = wsGet ws rr c := by
  have h2 : row ≠ rr := Ne.symm h
  simp [disqualify_lead, apply_ite (fun w : Wsheet => wsGet w rr c), wsGet_set, h2,
    ite_self]

/-- A duplicate step writes only to its own row. -/
theorem dupStep_ws_other (env : DupEnv) (st : DupState) (idx : Nat) (r : RowR)
    (rr c : Nat) (h : rr ≠ idx) :
    wsGet (dupStep env st idx r).1.ws rr c = wsGet st.ws rr c := by
  by_cases hskip : wsGet st.ws idx env.colStatus = "Disqualified"
  · simp [dupStep, hskip]
  · simp only [dupStep, hskip, if_false, ite_false]
    split_ifs <;> simp [disqualify_ws_other _ _ _ _ _ _ _ _ _ h]

/-- Along the external duplicate loop, a row is never flagged as an
internal email duplicate when every earlier row carrying the same email
was skipped (already disqualified when reached) - in particular when no
earlier row carries it at all. -/
theorem dupLoop_int_email (env : DupEnv) (rows : List RowR) :
    ∀ st idx j,
      (∀ p, p < j → dupEmailVal env.m (rows.getD p []) = dupEmailVal env.m (rows.getD j []) →
        wsGet st.ws (idx + p) env.colStatus = "Disqualified") →
      dupEmailVal env.m (rows.getD j []) ∉ st.leadEmails →
      "Internal duplicate email" ∉ ((dupLoop env st idx rows).2.getD j default).reasons := by
  induction rows with
  | nil => intro st idx j hskip hstart; cases j <;> exact List.not_mem_nil _
  | cons r rs ih =>
    intro st idx j hskip hstart
    cases j with
    | zero =>
      simp only [dupLoop, List.getD_cons_zero]
      refine dupStep_noIntEmail env st idx r ?_
      simp only [List.getD_cons_zero] at hstart
      simpa using hstart
    | succ k =>
      simp only [dupLoop, List.getD_cons_succ]
      simp only [List.getD_cons_succ] at hstart
      refine ih (dupStep env st idx r).1 (idx + 1) k ?_ ?_
      · intro p hp heq
        have hx := hskip (p + 1) (by omega) (by simpa using heq)
        rw [dupStep_ws_other env st idx r (idx + 1 + p) env.colStatus (by omega)]
        have harith : idx + (p + 1) = idx + 1 + p := by omega
        rw [harith] at hx
        exact hx
      · refine dupStep_emails_preserve env st idx r _ hstart ?_
        by_cases heq : dupEmailVal env.m (rs.getD k []) = dupEmailVal env.m r
        · right
          have hx := hskip 0 (by omega) (by simpa using heq.symm)
          simpa using hx
        · exact Or.inl heq

/-- Link analogue of `dupLoop_int_email`. -/
theorem dupLoop_int_link (env : DupEnv) (rows : List RowR) :
    ∀ st idx j,
      (∀ p, p < j → dupLinkVal env.m (rows.getD p []) = dupLinkVal env.m (rows.getD j []) →
        wsGet st.ws (idx + p) env.colStatus = "Disqualified") →
      dupLinkVal env.m (rows.getD j []) ∉ st.leadLinkedin →
      "Internal duplicate LinkedIn" ∉ ((dupLoop env st idx rows).2.getD j default).reasons := by
  induction rows with
  | nil => intro st idx j hskip hstart; cases j <;> exact List.not_mem_nil _
  | cons r rs ih =>
    intro st idx j hskip hstart
    cases j with
    | zero =>
      simp only [dupLoop, List.getD_cons_zero]
      refine dupStep_noIntLink env st idx r ?_
      simp only [List.getD_cons_zero] at hstart
      simpa using hstart
    | succ k =>
      simp only [dupLoop, List.getD_cons_succ]
      simp only [List.getD_cons_succ] at hstart
      refine ih (dupStep env st idx r).1 (idx + 1) k ?_ ?_
      · intro p hp heq
        have hx := hskip (p + 1) (by omega) (by simpa using heq)
        rw [dupStep_ws_other env st idx r (idx + 1 + p) env.colStatus (by omega)]
        have harith : idx + (p + 1) = idx + 1 + p := by omega
        rw [harith] at hx
        exact hx
      · refine dupStep_links_preserve env st idx r _ hstart ?_
        by_cases heq : dupLinkVal env.m (rs.getD k []) = dupLinkVal env.m r
        · right
          have hx := hskip 0 (by omega) (by simpa using heq.symm)
          simpa using hx
        · exact Or.inl heq

/-- Internal-duplicate analogue of `dupStep_noIntEmail`. -/
theorem intDupStep_noIntEmail (m : FieldMap) (cs cr cc : Nat) (st : IntDupState)
    (idx : Nat) (r : RowR)
    (h : st.emails.contains (dupEmailVal m r) = false) :
    "Internal duplicate email" ∉ (intDupStep m cs cr cc st idx r).2.reasons := by
  by_cases hskip : wsGet st.ws idx cs = "Disqualified"
  · simp [intDupStep, hskip]
  · simp only [intDupStep, hskip, if_false, ite_false]
    split_ifs <;> first
      | decide
      | (exfalso; simp_all)

/-- Internal-duplicate analogue of `dupStep_noIntLink`. -/
theorem intDupStep_noIntLink (m : FieldMap) (cs cr cc : Nat) (st : IntDupState)
    (idx : Nat) (r : RowR)
    (h : st.linkedin.contains (intLinkVal m r) = false) :
    "Internal duplicate LinkedIn" ∉ (intDupStep m cs cr cc st idx r).2.reasons := by
  by_cases hskip : wsGet st.ws idx cs = "Disqualified"
  · simp [intDupStep, hskip]
  · simp only [intDupStep, hskip, if_false, ite_false]
    split_ifs <;> first
      | decide
      | (exfalso; simp_all)

/-- Internal-duplicate analogue of `dupStep_emails_preserve`. -/
theorem intDupStep_emails_preserve (m : FieldMap) (cs cr cc : Nat)
    (st : IntDupState) (idx : Nat) (r : RowR) (E : String) (hE : E ∉ st.emails)
    (hcase : E ≠ dupEmailVal m r ∨ wsGet st.ws idx cs = "Disqualified") :
    E ∉ (intDupStep m cs cr cc st idx r).1.emails := by
  by_cases hskip : wsGet st.ws idx cs = "Disqualified"
  · simpa [intDupStep, hskip] using hE
  · have hne : E ≠ dupEmailVal m r := hcase.resolve_right hskip
    simp only [intDupStep, hskip, if_false, ite_false]
    by_cases hv : dupEmailVal m r = ""
    · simpa [hv] using hE
    · simp only [hv, ne_eq, not_false_eq_true, if_true, ite_true]
      intro hmem
      rcases mem_sInsert hmem with hmem | hmem
      · exact hE hmem
      · exact hne hmem

/-- Internal-duplicate analogue of `dupStep_links_preserve`. -/
theorem intDupStep_links_preserve (m : FieldMap) (cs cr cc : Nat)
    (st : IntDupState) (idx : Nat) (r : RowR) (E : String) (hE : E ∉ st.linkedin)
    (hcase : E ≠ intLinkVal m r ∨ wsGet st.ws idx cs = "Disqualified") :
    E ∉ (intDupStep m cs cr cc st idx r).1.linkedin := by
  by_cases hskip : wsGet st.ws idx cs = "Disqualified"
  · simpa [intDupStep, hskip] using hE
  · have hne : E ≠ intLinkVal m r := hcase.resolve_right hskip
    simp only [intDupStep, hskip, if_false, ite_false]
    by_cases hv : intLinkVal m r = ""
    · simpa [hv] using hE
    · simp only [hv, ne_eq, not_false_eq_true, if_true, ite_true]
      intro hmem
      rcases mem_sInsert hmem with hmem | hmem
      · exact hE hmem
      · exact hne hmem

/-- An internal-duplicate step writes only to its own row. -/
theorem intDupStep_ws_other (m : FieldMap) (cs cr cc : Nat) (st : IntDupState)
    (idx : Nat) (r : RowR) (rr c : Nat) (h : rr ≠ idx) :
    wsGet (intDupStep m cs cr cc st idx r).1.ws rr c = wsGet st.ws rr c := by
  by_cases hskip : wsGet st.ws idx cs = "Disqualified"
  · simp [intDupStep, hskip]
  · simp only [intDupStep, hskip, if_false, ite_false]
    split_ifs <;> simp [disqualify_ws_other _ _ _ _ _ _ _ _ _ h]

/-- Internal-duplicate analogue of `dupLoop_int_email`. -/
theorem intDupLoop_int_email (m : FieldMap) (cs cr cc : Nat) (rows : List RowR) :
    ∀ st idx j,
      (∀ p, p < j → dupEmailVal m (rows.getD p []) = dupEmailVal m (rows.getD j []) →
        wsGet st.ws (idx + p) cs = "Disqualified") →
      dupEmailVal m (rows.getD j []) ∉ st.emails →
      "Internal duplicate email" ∉
        ((intDupLoop m cs cr cc st idx rows).2.getD j default).reasons := by
  induction rows with
  | nil => intro st idx j hskip hstart; cases j <;> exact List.not_mem_nil _
  | cons r rs ih =>
    intro st idx j hskip hstart
    cases j with
    | zero =>
      simp only [intDupLoop, List.getD_cons_zero]
      refine intDupStep_noIntEmail m cs cr cc st idx r ?_
      simp only [List.getD_cons_zero] at hstart
      simpa using hstart
    | succ k =>
      simp only [intDupLoop, List.getD_cons_succ]
      simp only [List.getD_cons_succ] at hstart
      refine ih (intDupStep m cs cr cc st idx r).1 (idx + 1) k ?_ ?_
      · intro p hp heq
        have hx := hskip (p + 1) (by omega) (by simpa using heq)
        rw [intDupStep_ws_other m cs cr cc st idx r (idx + 1 + p) cs (by omega)]
        have harith : idx + (p + 1) = idx + 1 + p := by omega
        rw [harith] at hx
        exact hx
      · refine intDupStep_emails_preserve m cs cr cc st idx r _ hstart ?_
        by_cases heq : dupEmailVal m (rs.getD k []) = dupEmailVal m r
        · right
          have hx := hskip 0 (by omega) (by simpa using heq.symm)
          simpa using hx
        · exact Or.inl heq

/-- Internal-duplicate analogue of `dupLoop_int_link`. -/
theorem intDupLoop_int_link (m : FieldMap) (cs cr cc : Nat) (rows : List RowR) :
    ∀ st idx j,
      (∀ p, p < j → intLinkVal m (rows.getD p []) = intLinkVal m (rows.getD j []) →
        wsGet st.ws (idx + p) cs = "Disqualified") →
      intLinkVal m (rows.getD j []) ∉ st.linkedin →
      "Internal duplicate LinkedIn" ∉
        ((intDupLoop m cs cr cc st idx rows).2.getD j default).reasons := by
  induction rows with
  | nil => intro st idx j hskip hstart; cases j <;> exact List.not_mem_nil _
  | cons r rs ih =>
    intro st idx j hskip hstart
    cases j with
    | zero =>
      simp only [intDupLoop, List.getD_cons_zero]
      refine intDupStep_noIntLink m cs cr cc st idx r ?_
      simp only [List.getD_cons_zero] at hstart
      simpa using hstart
    | succ k =>
      simp only [intDupLoop, List.getD_cons_succ]
      simp only [List.getD_cons_succ] at hstart
      refine ih (intDupStep m cs cr cc st idx r).1 (idx + 1) k ?_ ?_
      · intro p hp heq
        have hx := hskip (p + 1) (by omega) (by simpa using heq)
        rw [intDupStep_ws_other m cs cr cc st idx r (idx + 1 + p) cs (by omega)]
        have harith : idx + (p + 1) = idx + 1 + p := by omega
        rw [harith] at hx
        exact hx
      · refine intDupStep_links_preserve m cs cr cc st idx r _ hstart ?_
        by_cases heq : intLinkVal m (rs.getD k []) = intLinkVal m r
        · right
          have hx := hskip 0 (by omega) (by simpa using heq.symm)
          simpa using hx
        · exact Or.inl heq

/-- A duplicate step marks an already-disqualified row as skipped. -/
theorem dupStep_skipped (env : DupEnv) (st : DupState) (idx : Nat) (r : RowR)
    (h : wsGet st.ws idx env.colStatus = "Disqualified") :
    (dupStep env st idx r).2.skipped = true := by
  simp [dupStep, h]

/-- Along the external duplicate loop, a row whose status cell was already
`"Disqualified"` before the pass is skipped (earlier rows write only to
their own rows, so the cell is unchanged when the row is reached). -/
theorem dupLoop_skipped (env : DupEnv) (rows : List RowR) :
    ∀ st idx i, i < rows.length →
      wsGet st.ws (idx + i) env.colStatus = "Disqualified" →
      ((dupLoop env st idx rows).2.getD i default).skipped = true := by
  induction rows with
  | nil => intro st idx i hi; exact absurd hi (by simp)
  | cons r rs ih =>
    intro st idx i hi hst
    cases i with
    | zero =>
      simp only [dupLoop, List.getD_cons_zero]
      refine dupStep_skipped env st idx r ?_
      simpa using hst
    | succ k =>
      simp only [dupLoop, List.getD_cons_succ]
      refine ih (dupStep env st idx r).1 (idx + 1) k (by simpa using hi) ?_
      rw [dupStep_ws_other env st idx r (idx + 1 + k) env.colStatus (by omega)]
      have harith : idx + (k + 1) = idx + 1 + k := by omega
      rw [harith] at hst
      exact hst

/-- Internal-duplicate analogue of `dupStep_skipped`. -/
theorem intDupStep_skipped (m : FieldMap) (cs cr cc : Nat) (st : IntDupState)
    (idx : Nat) (r : RowR) (h : wsGet st.ws idx cs = "Disqualified") :
    (intDupStep m cs cr cc st idx r).2.skipped = true := by
  simp [intDupStep, h]

/-- Internal-duplicate analogue of `dupLoop_skipped`. -/
theorem intDupLoop_skipped (m : FieldMap) (cs cr cc : Nat) (rows : List RowR) :
    ∀ st idx i, i < rows.length →
      wsGet st.ws (idx + i) cs = "Disqualified" →
      ((intDupLoop m cs cr cc st idx rows).2.getD i default).skipped = true := by
  induction rows with
  | nil => intro st idx i hi; exact absurd hi (by simp)
  | cons r rs ih =>
    intro st idx i hi hst
    cases i with
    | zero =>
      simp only [intDupLoop, List.getD_cons_zero]
      refine intDupStep_skipped m cs cr cc st idx r ?_
      simpa using hst
    | succ k =>
      simp only [intDupLoop, List.getD_cons_succ]
      refine ih (intDupStep m cs cr cc st idx r).1 (idx + 1) k (by simpa using hi) ?_
      rw [intDupStep_ws_other m cs cr cc st idx r (idx + 1 + k) cs (by omega)]
      have harith : idx + (k + 1) = idx + 1 + k := by omega
      rw [harith] at hst
      exact hst

/-- Claim C6: first-occurrence immunity.  A lead row whose normalized
phone no earlier row shares is never flagged by the internal phone check;
and a lead row whose exact email (resp. profile link) no earlier row
carries is never reported as an internal email (resp. LinkedIn) duplicate
by the external duplicate check, whatever the permutation generator and
delivery data. -/
theorem c6_first_occurrence_immunity :
    (∀ (lead : List RowR) (ws : Wsheet) (m : FieldMap) (col i : Nat),
      (∀ p, p < i → phoneVal m (lead.getD p []) ≠ phoneVal m (lead.getD i [])) →
      ((run_internal_phone_check lead ws m col).2.getD i default).conflict = none) ∧
    (∀ (gen : PermGen) (delivery lead : List RowR) (ws : Wsheet) (m : FieldMap)
        (cs cr cc i : Nat),
      (∀ p, p < i → dupEmailVal m (lead.getD p []) ≠ dupEmailVal m (lead.getD i [])) →
      "Internal duplicate email" ∉
        ((run_duplicate_check gen delivery lead ws m cs cr cc).2.getD i default).reasons) ∧
    (∀ (gen : PermGen) (delivery lead : List RowR) (ws : Wsheet) (m : FieldMap)
        (cs cr cc i : Nat),
      (∀ p, p < i → dupLinkVal m (lead.getD p []) ≠ dupLinkVal m (lead.getD i [])) →
      "Internal duplicate LinkedIn" ∉
        ((run_duplicate_check gen delivery lead ws m cs cr cc).2.getD i default).reasons) := by
  refine ⟨?_, ?_, ?_⟩
  · intro lead ws m col i hdist
    by_cases hna : mapGet m "lead_phone" = some NA
    · simp only [run_internal_phone_check, if_pos hna]
      cases i <;> rfl
    · simp only [run_internal_phone_check, if_neg hna]
      exact phoneLoop_first m col lead _ 2 i hdist rfl
  · intro gen delivery lead ws m cs cr cc i hdist
    simp only [run_duplicate_check]
    refine dupLoop_int_email _ lead _ 2 i ?_ (List.not_mem_nil _)
    intro p hp heq
    exact absurd heq (hdist p hp)
  · intro gen delivery lead ws m cs cr cc i hdist
    simp only [run_duplicate_check]
    refine dupLoop_int_link _ lead _ 2 i ?_ (List.not_mem_nil _)
    intro p hp heq
    exact absurd heq (hdist p hp)

/-- The field mapping of the duplicate/phone witnesses. -/
def c6m : FieldMap :=
  [("lead_phone", "phone"), ("lead_company", "company"), ("lead_domain", "domain"),
   ("lead_email", "email"), ("lead_linkedin", "li"), ("lead_first", "first"),
   ("lead_last", "last"), ("delivery_first", "first"), ("delivery_last", "last"),
   ("delivery_domain", "domain"), ("delivery_email", "email"),
   ("delivery_linkedin", "li")]

/-- Two leads with distinct phones, emails and links. -/
def c6lead : List RowR :=
  [[("phone", "111"), ("email", "a@x.co"), ("li", "l1"), ("company", "Alpha"),
    ("domain", "x.co"), ("first", "Ann"), ("last", "Ames")],
   [("phone", "222"), ("email", "b@y.co"), ("li", "l2"), ("company", "Beta"),
    ("domain", "y.co"), ("first", "Bob"), ("last", "Beam")]]

/-- Witness for C6: the second row of a concrete two-row lead set, with
fresh phone/email/link, is not flagged by any of the three internal
checks. -/
theorem c6_witness :
    (phoneVal c6m (c6lead.getD 0 []) ≠ phoneVal c6m (c6lead.getD 1 []) ∧
     dupEmailVal c6m (c6lead.getD 0 []) ≠ dupEmailVal c6m (c6lead.getD 1 []) ∧
     dupLinkVal c6m (c6lead.getD 0 []) ≠ dupLinkVal c6m (c6lead.getD 1 [])) ∧
    ((run_internal_phone_check c6lead [] c6m 9).2.getD 1 default).conflict = none ∧
    "Internal duplicate email" ∉
      ((run_duplicate_check okGen [] c6lead [] c6m 3 4 5).2.getD 1 default).reasons ∧
    "Internal duplicate LinkedIn" ∉
      ((run_duplicate_check okGen [] c6lead [] c6m 3 4 5).2.getD 1 default).reasons :=
  ⟨⟨by decide, by decide, by decide⟩,
   c6_first_occurrence_immunity.1 c6lead [] c6m 9 1
     (fun p hp => by
       have hp0 : p = 0 := by omega
       subst hp0
       decide),
   c6_first_occurrence_immunity.2.1 okGen [] c6lead [] c6m 3 4 5 1
     (fun p hp => by
       have hp0 : p = 0 := by omega
       subst hp0
       decide),
   c6_first_occurrence_immunity.2.2 okGen [] c6lead [] c6m 3 4 5 1
     (fun p hp => by
       have hp0 : p = 0 := by omega
       subst hp0
       decide)⟩

/-- Claim C10: a lead row already marked `"Disqualified"` when reached is
skipped before any signature collection (both duplicate checkers), and a
later row bearing the same exact email (resp. link) as such skipped rows
only is not flagged as an internal duplicate on that account. -/
theorem c10_disqualified_rows_inert :
    (∀ (gen : PermGen) (delivery lead : List RowR) (ws : Wsheet) (m : FieldMap)
        (cs cr cc i : Nat), i < lead.length →
      wsGet ws (2 + i) cs = "Disqualified" →
      ((run_duplicate_check gen delivery lead ws m cs cr cc).2.getD i default).skipped =
        true) ∧
    (∀ (gen : PermGen) (delivery lead : List RowR) (ws : Wsheet) (m : FieldMap)
        (cs cr cc j : Nat),
      (∀ p, p < j → dupEmailVal m (lead.getD p []) = dupEmailVal m (lead.getD j []) →
        wsGet ws (2 + p) cs = "Disqualified") →
      "Internal duplicate email" ∉
        ((run_duplicate_check gen delivery lead ws m cs cr cc).2.getD j default).reasons) ∧
    (∀ (gen : PermGen) (delivery lead : List RowR) (ws : Wsheet) (m : FieldMap)
        (cs cr cc j : Nat),
      (∀ p, p < j → dupLinkVal m (lead.getD p []) = dupLinkVal m (lead.getD j []) →
        wsGet ws (2 + p) cs = "Disqualified") →
      "Internal duplicate LinkedIn" ∉
        ((run_duplicate_check gen delivery lead ws m cs cr cc).2.getD j default).reasons) ∧
    (∀ (lead : List RowR) (ws : Wsheet) (m : FieldMap) (cs cr cc i : Nat),
      i < lead.length → wsGet ws (2 + i) cs = "Disqualified" →
      ((run_internal_duplicate_check lead ws m cs cr cc).2.getD i default).skipped =
        true) ∧
    (∀ (lead : List RowR) (ws : Wsheet) (m : FieldMap) (cs cr cc j : Nat),
      (∀ p, p < j → dupEmailVal m (lead.getD p []) = dupEmailVal m (lead.getD j []) →
        wsGet ws (2 + p) cs = "Disqualified") →
      "Internal duplicate email" ∉
        ((run_internal_duplicate_check lead ws m cs cr cc).2.getD j default).reasons) ∧
    (∀ (lead : List RowR) (ws : Wsheet) (m : FieldMap) (cs cr cc j : Nat),
      (∀ p, p < j → intLinkVal m (lead.getD p []) = intLinkVal m (lead.getD j []) →
        wsGet ws (2 + p) cs = "Disqualified") →
      "Internal duplicate LinkedIn" ∉
        ((run_internal_duplicate_check lead ws m cs cr cc).2.getD j default).reasons) := by
  refine ⟨?_, ?_, ?_, ?_, ?_, ?_⟩
  · intro gen delivery lead ws m cs cr cc i hi hst
    simp only [run_duplicate_check]
    exact dupLoop_skipped _ lead _ 2 i hi hst
  · intro gen delivery lead ws m cs cr cc j hskip
    simp only [run_duplicate_check]
    exact dupLoop_int_email _ lead _ 2 j hskip (List.not_mem_nil _)
  · intro gen delivery lead ws m cs cr cc j hskip
    simp only [run_duplicate_check]
    exact dupLoop_int_link _ lead _ 2 j hskip (List.not_mem_nil _)
  · intro lead ws m cs cr cc i hi hst
    simp only [run_internal_duplicate_check]
    exact intDupLoop_skipped m cs cr cc lead _ 2 i hi hst
  · intro lead ws m cs cr cc j hskip
    simp only [run_internal_duplicate_check]
    exact intDupLoop_int_email m cs cr cc lead _ 2 j hskip (List.not_mem_nil _)
  · intro lead ws m cs cr cc j hskip
    simp only [run_internal_duplicate_check]
    exact intDupLoop_int_link m cs cr cc lead _ 2 j hskip (List.not_mem_nil _)

/-- Two leads sharing the same email and link, with the first one already
disqualified before the pass. -/
def c10lead : List RowR :=
  [[("phone", "111"), ("email", "a@x.co"), ("li", "l1"), ("company", "Alpha"),
    ("domain", "x.co"), ("first", "Ann"), ("last", "Ames")],
   [("phone", "333"), ("email", "a@x.co"), ("li", "l1"), ("company", "Gamma"),
    ("domain", "x.co"), ("first", "Gus"), ("last", "Gray")]]

/-- The initial worksheet of the C10 witness: the first lead row (sheet
row 2) is already disqualified. -/
def c10ws : Wsheet := [((2, 3), "Disqualified")]

/-- Witness for C10: with the first row pre-disqualified and sharing its
email/link with the second row, the first row is skipped and the second
row is not flagged as an internal duplicate, in both checkers. -/
theorem c10_witness :
    ((0 : Nat) < c10lead.length ∧ wsGet c10ws (2 + 0) 3 = "Disqualified" ∧
     dupEmailVal c6m (c10lead.getD 0 []) = dupEmailVal c6m (c10lead.getD 1 [])) ∧
    ((run_duplicate_check okGen [] c10lead c10ws c6m 3 4 5).2.getD 0 default).skipped =
      true ∧
    "Internal duplicate email" ∉
      ((run_duplicate_check okGen [] c10lead c10ws c6m 3 4 5).2.getD 1 default).reasons ∧
    ((run_internal_duplicate_check c10lead c10ws c6m 3 4 5).2.getD 0 default).skipped =
      true ∧
    "Internal duplicate email" ∉
      ((run_internal_duplicate_check c10lead c10ws c6m 3 4 5).2.getD 1 default).reasons :=
  ⟨⟨by decide, by decide, by decide⟩,
   c10_disqualified_rows_inert.1 okGen [] c10lead c10ws c6m 3 4 5 0 (by decide) (by decide),
   c10_disqualified_rows_inert.2.1 okGen [] c10lead c10ws c6m 3 4 5 1
     (fun p hp heq => by
       have hp0 : p = 0 := by omega
       subst hp0
       decide),
   c10_disqualified_rows_inert.2.2.2.1 c10lead c10ws c6m 3 4 5 0 (by decide) (by decide),
   c10_disqualified_rows_inert.2.2.2.2.1 c10lead c10ws c6m 3 4 5 1
     (fun p hp heq => by
       have hp0 : p = 0 := by omega
       subst hp0
       decide)⟩

/-- Claim C9: a permutation-generation exception (modelled as
`Except.error`) is caught per record in both the delivery-signature
builder and the lead loop: the permutation-errors stat is incremented by
one, the record contributes no permutation-derived signatures (delivery)
and no permutation match (lead), and the loop structure itself shows the
pass continues over any split of the record list - no exception aborts
it. -/
theorem c9_permutation_errors :
    (∀ (gen : PermGen) (m : FieldMap) (st : DelSigs × DupStats) (r : RowR),
      _can_check_permutations m = true →
      pyStrip (rowGet r ((mapGet m "delivery_first").getD "")) ≠ "" →
      pyStrip (rowGet r ((mapGet m "delivery_last").getD "")) ≠ "" →
      pyStrip (rowGet r ((mapGet m "delivery_domain").getD "")) ≠ "" →
      gen (pyStrip (rowGet r ((mapGet m "delivery_first").getD "")))
          (pyStrip (rowGet r ((mapGet m "delivery_last").getD "")))
          (pyStrip (rowGet r ((mapGet m "delivery_domain").getD ""))) =
        Except.error () →
      (delSigStep gen m st r).2.permutation_errors = st.2.permutation_errors + 1 ∧
      (delSigStep gen m st r).1.email_permutations = st.1.email_permutations) ∧
    (∀ (env : DupEnv) (st : DupState) (idx : Nat) (r : RowR),
      wsGet st.ws idx env.colStatus ≠ "Disqualified" →
      (dupEmailVal env.m r ≠ "" && env.sigs.emails.contains (dupEmailVal env.m r)) =
        false →
      (dupLinkVal env.m r ≠ "" && env.sigs.linkedin.contains (dupLinkVal env.m r)) =
        false →
      _can_check_permutations env.m = true →
      dupLF env.m r ≠ "" → dupLL env.m r ≠ "" → dupLD env.m r ≠ "" →
      env.gen (dupLF env.m r) (dupLL env.m r) (dupLD env.m r) = Except.error () →
      (dupStep env st idx r).1.stats.permutation_errors =
        st.stats.permutation_errors + 1 ∧
      "Email permutation match in delivery" ∉ (dupStep env st idx r).2.reasons ∧
      (dupStep env st idx r).2.duplicate_found = false) ∧
    (∀ (env : DupEnv) (st : DupState) (idx : Nat) (xs ys : List RowR),
      dupLoop env st idx (xs ++ ys) =
        ((dupLoop env (dupLoop env st idx xs).1 (idx + xs.length) ys).1,
         (dupLoop env st idx xs).2 ++
           (dupLoop env (dupLoop env st idx xs).1 (idx + xs.length) ys).2)) := by
  refine ⟨?_, ?_, ?_⟩
  · intro gen m st r hcan hf hl hd hgen
    simp only [delSigStep, hcan, hf, hl, hd, hgen]
    split_ifs <;> simp_all
  · intro env st idx r hskip hem hli hcan hf hl hd hgen
    simp only [dupStep, hskip, if_false, ite_false, hem, hli, hcan, hf, hl, hd, hgen]
    refine ⟨?_, ?_, ?_⟩
    · split_ifs <;> first
        | decide
        | simp_all
    · split_ifs <;> first
        | decide
        | simp_all
    · simp
  · intro env st idx xs ys
    induction xs generalizing st idx with
    | nil => simp [dupLoop]
    | cons r rs ih =>
      simp only [List.cons_append, dupLoop, List.append_eq, List.length_cons]
      rw [ih]
      have harith : idx + 1 + rs.length = idx + (rs.length + 1) := by omega
      rw [harith]

/-- A generator that always raises. -/
def errGen : PermGen := fun _ _ _ => Except.error ()

/-- Environment of the C9 witness: empty delivery signatures, raising
generator. -/
def c9env : DupEnv := ⟨c6m, errGen, ⟨[], [], []⟩, 3, 4, 5⟩

/-- Initial lead-loop state of the C9 witness. -/
def c9st : DupState := ⟨[], [], [], dupStats0⟩

/-- The lead row of the C9 witness. -/
def c9r : RowR := c6lead.getD 0 []

/-- Witness for C9: a concrete lead row processed under an
always-raising generator increments the error stat by one, gets no
permutation-match reason, and is not flagged. -/
theorem c9_witness :
    (wsGet c9st.ws 2 c9env.colStatus ≠ "Disqualified" ∧
     _can_check_permutations c9env.m = true ∧
     dupLF c9env.m c9r ≠ "" ∧ dupLL c9env.m c9r ≠ "" ∧ dupLD c9env.m c9r ≠ "" ∧
     c9env.gen (dupLF c9env.m c9r) (dupLL c9env.m c9r) (dupLD c9env.m c9r) =
       Except.error ()) ∧
    (dupStep c9env c9st 2 c9r).1.stats.permutation_errors =
      c9st.stats.permutation_errors + 1 ∧
    "Email permutation match in delivery" ∉ (dupStep c9env c9st 2 c9r).2.reasons ∧
    (dupStep c9env c9st 2 c9r).2.duplicate_found = false :=
  ⟨⟨by decide, by decide, by decide, by decide, by decide, rfl⟩,
   c9_permutation_errors.2.1 c9env c9st 2 c9r (by decide) (by decide) (by decide)
     (by decide) (by decide) (by decide) (by decide) rfl⟩

/-- `Char.ofNat` on a valid code point round-trips through `Char.toNat`. -/
lemma toNat_ofNat_valid (n : Nat) (h : n.isValidChar) : (Char.ofNat n).toNat = n := by
  simp only [Char.ofNat, h, dif_pos, Char.ofNatAux, Char.toNat]
  rfl

/-- ASCII lowercasing is idempotent. -/
lemma toLower_idem (c : Char) : c.toLower.toLower = c.toLower := by
  by_cases h : c.toNat ≥ 65 ∧ c.toNat ≤ 90
  · have h1 : c.toLower = Char.ofNat (c.toNat + 32) := by
      unfold Char.toLower
      rw [if_pos h]
    have hv : (Char.ofNat (c.toNat + 32)).toNat = c.toNat + 32 := by
      apply toNat_ofNat_valid
      left
      omega
    rw [h1]
    unfold Char.toLower
    rw [if_neg]
    rw [hv]
    omega
  · have h1 : c.toLower = c := by
      unfold Char.toLower
      rw [if_neg h]
    rw [h1, h1]

/-- Membership is preserved by `dropWhile`. -/
lemma mem_dropWhile {p : Char → Bool} {c : Char} {l : List Char}
    (h : c ∈ l.dropWhile p) : c ∈ l :=
  (List.dropWhile_sublist p).subset h

/-- Membership is preserved by `stripL`. -/
lemma mem_stripL {c : Char} {l : List Char} (h : c ∈ stripL l) : c ∈ l := by
  unfold stripL at h
  rw [List.mem_reverse] at h
  have h2 := mem_dropWhile h
  rw [List.mem_reverse] at h2
  exact mem_dropWhile h2

/-- Membership is preserved by `stripArticles`. -/
lemma mem_stripArticles {c : Char} {l : List Char} (h : c ∈ stripArticles l) :
    c ∈ l := by
  simp only [stripArticles, company_articles, List.foldl_cons, List.foldl_nil] at h
  split_ifs at h <;>
    first
      | exact h
      | exact List.mem_of_mem_drop h
      | exact List.mem_of_mem_drop (List.mem_of_mem_drop h)

/-- Membership is preserved by `stripLegalSuffix`. -/
lemma mem_stripLegalSuffix {c : Char} {l : List Char}
    (h : c ∈ stripLegalSuffix l) : c ∈ l := by
  unfold stripLegalSuffix at h
  cases hf : company_suffixes.find? (fun suf => endsWithL suf.data l) with
  | none => rw [hf] at h; exact h
  | some suf =>
    rw [hf] at h
    exact List.mem_of_mem_take (mem_stripL h)

/-- Every word emitted by `runsAux` is nonempty, separator-free, and drawn
from the input or the accumulator. -/
lemma runsAux_sound (p : Char → Bool) :
    ∀ (l acc : List Char), (∀ c ∈ acc, p c = false) →
      ∀ w ∈ runsAux p l acc, w ≠ [] ∧ ∀ c ∈ w, p c = false ∧ (c ∈ l ∨ c ∈ acc) := by
  intro l
  induction l with
  | nil =>
    intro acc hacc w hw
    unfold runsAux at hw
    by_cases ha : acc.isEmpty
    · simp [ha] at hw
    · simp [ha] at hw
      subst hw
      refine ⟨by simpa using (List.isEmpty_eq_false.mp (by simpa using ha)), ?_⟩
      intro c hc
      rw [List.mem_reverse] at hc
      exact ⟨hacc c hc, Or.inr hc⟩
  | cons a t ih =>
    intro acc hacc w hw
    unfold runsAux at hw
    cases hp : p a with
    | true =>
      simp only [hp, if_true] at hw
      by_cases ha : acc.isEmpty
      · simp only [ha, if_true] at hw
        have h := ih [] (by simp) w hw
        refine ⟨h.1, fun c hc => ?_⟩
        obtain ⟨h1, h2⟩ := h.2 c hc
        exact ⟨h1, Or.inl (List.mem_cons_of_mem _ (h2.resolve_right (by simp)))⟩
      · simp only [ha, if_false] at hw
        rcases List.mem_cons.mp hw with rfl | hw2
        · refine ⟨by simpa using (List.isEmpty_eq_false.mp (by simpa using ha)), ?_⟩
          intro c hc
          rw [List.mem_reverse] at hc
          exact ⟨hacc c hc, Or.inr hc⟩
        · have h := ih [] (by simp) w hw2
          refine ⟨h.1, fun c hc => ?_⟩
          obtain ⟨h1, h2⟩ := h.2 c hc
          exact ⟨h1, Or.inl (List.mem_cons_of_mem _ (h2.resolve_right (by simp)))⟩
    | false =>
      simp only [hp, if_false] at hw
      have hacc2 : ∀ c ∈ a :: acc, p c = false := by
        intro c hc
        rcases List.mem_cons.mp hc with rfl | hc2
        · exact hp
        · exact hacc c hc2
      have h := ih (a :: acc) hacc2 w hw
      refine ⟨h.1, fun c hc => ?_⟩
      obtain ⟨h1, h2⟩ := h.2 c hc
      refine ⟨h1, ?_⟩
      rcases h2 with h2 | h2
      · exact Or.inl (List.mem_cons_of_mem _ h2)
      · rcases List.mem_cons.mp h2 with rfl | h2
        · exact Or.inl (List.mem_cons_self _ _)
        · exact Or.inr h2

/-- Words of `wordsL` are nonempty, whitespace-free, and drawn from the input. -/
lemma wordsL_sound {l : List Char} {w : List Char} (hw : w ∈ wordsL l) :
    w ≠ [] ∧ ∀ c ∈ w, Char.isWhitespace c = false ∧ c ∈ l := by
  have h := runsAux_sound Char.isWhitespace l [] (by simp) w hw
  refine ⟨h.1, fun c hc => ?_⟩
  obtain ⟨h1, h2⟩ := h.2 c hc
  exact ⟨h1, h2.resolve_right (by simp)⟩

/-- `joinSpaceL` on the empty word list. -/
lemma joinSpaceL_nil : joinSpaceL [] = [] := by
  simp [joinSpaceL, List.intercalate]

/-- `joinSpaceL` on a single word. -/
lemma joinSpaceL_single (w : List Char) : joinSpaceL [w] = w := by
  simp [joinSpaceL, List.intercalate]

/-- `joinSpaceL` unfolding on two or more words. -/
lemma joinSpaceL_cons2 (w v : List Char) (ws : List (List Char)) :
    joinSpaceL (w :: v :: ws) = w ++ ' ' :: joinSpaceL (v :: ws) := by
  simp [joinSpaceL, List.intercalate, List.intersperse]

/-- Every character of a space-join is a space or a word character. -/
lemma mem_joinSpaceL :
    ∀ (ws : List (List Char)) (c : Char), c ∈ joinSpaceL ws →
      c = ' ' ∨ ∃ w ∈ ws, c ∈ w := by
  intro ws
  induction ws with
  | nil =>
    intro c hc
    rw [joinSpaceL_nil] at hc
    exact absurd hc (List.not_mem_nil c)
  | cons w ws ih =>
    intro c hc
    cases ws with
    | nil =>
      rw [joinSpaceL_single] at hc
      exact Or.inr ⟨w, List.mem_cons_self _ _, hc⟩
    | cons v vs =>
      rw [joinSpaceL_cons2] at hc
      rcases List.mem_append.mp hc with h | h
      · exact Or.inr ⟨w, List.mem_cons_self _ _, h⟩
      · rcases List.mem_cons.mp h with rfl | h
        · exact Or.inl rfl
        · rcases ih c h with h1 | ⟨u, hu, hcu⟩
          · exact Or.inl h1
          · exact Or.inr ⟨u, List.mem_cons_of_mem _ hu, hcu⟩

/-- The head of a space-join of nonempty words is the head of the first word. -/
lemma joinSpaceL_head (w : List Char) (ws : List (List Char)) (hw : w ≠ []) :
    (joinSpaceL (w :: ws)).head? = w.head? := by
  cases ws with
  | nil => rw [joinSpaceL_single]
  | cons v vs =>
    rw [joinSpaceL_cons2]
    cases w with
    | nil => exact absurd rfl hw
    | cons a t => rfl

/-- The last character of a space-join of nonempty words is the last
character of some word. -/
lemma joinSpaceL_getLast :
    ∀ (ws : List (List Char)), (∀ w ∈ ws, w ≠ []) → ∀ c,
      (joinSpaceL ws).getLast? = some c → ∃ w ∈ ws, w.getLast? = some c := by
  intro ws
  induction ws with
  | nil =>
    intro _ c hc
    rw [joinSpaceL_nil] at hc
    exact absurd hc (by simp)
  | cons w ws ih =>
    intro hne c hc
    cases ws with
    | nil =>
      rw [joinSpaceL_single] at hc
      exact ⟨w, List.mem_cons_self _ _, hc⟩
    | cons v vs =>
      rw [joinSpaceL_cons2] at hc
      have hJ : joinSpaceL (v :: vs) ≠ [] := by
        intro hcon
        have hv : v ≠ [] := hne v (List.mem_cons_of_mem _ (List.mem_cons_self _ _))
        have := joinSpaceL_head v vs hv
        rw [hcon] at this
        cases v with
        | nil => exact hv rfl
        | cons a t => simp at this
      have hsplit : (' ' :: joinSpaceL (v :: vs)) = [' '] ++ joinSpaceL (v :: vs) := rfl
      rw [hsplit, List.getLast?_append, List.getLast?_append] at hc
      have hc3 : (joinSpaceL (v :: vs)).getLast? = some c := by
        cases hlast : (joinSpaceL (v :: vs)).getLast? with
        | none =>
          exact absurd (List.getLast?_eq_none_iff.mp hlast) hJ
        | some d =>
          rw [hlast] at hc
          simpa using hc
      have := ih (fun u hu => hne u (List.mem_cons_of_mem _ hu)) c hc3
      obtain ⟨u, hu, huc⟩ := this
      exact ⟨u, List.mem_cons_of_mem _ hu, huc⟩

/-- Unfolding equation of `runsAux` on the empty list. -/
lemma runsAux_nil (p : Char → Bool) (acc : List Char) :
    runsAux p [] acc = if acc.isEmpty then [] else [acc.reverse] := by
  simp only [runsAux]

/-- Unfolding equation of `runsAux` on a non-separator head. -/
lemma runsAux_cons_false {p : Char → Bool} {a : Char} (h : p a = false)
    (t acc : List Char) : runsAux p (a :: t) acc = runsAux p t (a :: acc) := by
  simp only [runsAux, h, Bool.false_eq_true, if_false]

/-- Unfolding equation of `runsAux` on a separator head. -/
lemma runsAux_cons_true {p : Char → Bool} {a : Char} (h : p a = true)
    (t acc : List Char) :
    runsAux p (a :: t) acc =
      if acc.isEmpty then runsAux p t [] else acc.reverse :: runsAux p t [] := by
  simp only [runsAux, h, if_true]

/-- `runsAux` consumes a separator-free block into its accumulator. -/
lemma runsAux_skip (p : Char → Bool) :
    ∀ (w l acc : List Char), (∀ c ∈ w, p c = false) →
      runsAux p (w ++ l) acc = runsAux p l (w.reverse ++ acc) := by
  intro w
  induction w with
  | nil => intro l acc _; simp
  | cons a t ih =>
    intro l acc hw
    have ha : p a = false := hw a (List.mem_cons_self _ _)
    show runsAux p (a :: (t ++ l)) acc = _
    rw [runsAux_cons_false ha]
    rw [ih l (a :: acc) (fun c hc => hw c (List.mem_cons_of_mem _ hc))]
    congr 1
    simp

/-- Splitting a space-join of nonempty whitespace-free words on whitespace
recovers exactly the word list. -/
lemma runsAux_joinSpaceL :
    ∀ (ws : List (List Char)),
      (∀ w ∈ ws, w ≠ [] ∧ ∀ c ∈ w, Char.isWhitespace c = false) →
      runsAux Char.isWhitespace (joinSpaceL ws) [] = ws := by
  intro ws
  induction ws with
  | nil => intro _; rw [joinSpaceL_nil, runsAux_nil]; rfl
  | cons w ws ih =>
    intro h
    have hw := h w (List.mem_cons_self _ _)
    have hne : (w.reverse ++ ([] : List Char)).isEmpty = false := by
      simp [List.isEmpty_eq_false, hw.1]
    cases ws with
    | nil =>
      rw [joinSpaceL_single]
      have hskip := runsAux_skip Char.isWhitespace w [] [] hw.2
      rw [List.append_nil] at hskip
      rw [hskip, runsAux_nil, hne]
      simp
    | cons v vs =>
      rw [joinSpaceL_cons2]
      rw [runsAux_skip Char.isWhitespace w (' ' :: joinSpaceL (v :: vs)) [] hw.2]
      rw [runsAux_cons_true (by decide)]
      rw [hne]
      rw [ih (fun u hu => h u (List.mem_cons_of_mem _ hu))]
      simp

/-- Mapping `Char.toLower` is the identity on lists of lowercase-fixed
characters. -/
lemma lowerL_eq_self {l : List Char} (h : ∀ c ∈ l, Char.toLower c = c) :
    lowerL l = l :=
  (List.map_congr_left h).trans (List.map_id l)

/-- `stripArticles` is the identity when neither article is a prefix. -/
lemma stripArticles_eq_self {l : List Char}
    (h : ∀ p ∈ company_articles, startsWithL p.data l = false) :
    stripArticles l = l := by
  have ha := h "the " (List.mem_cons_self _ _)
  have hb := h "a " (List.mem_cons_of_mem _ (List.mem_cons_self _ _))
  simp only [stripArticles, company_articles, List.foldl_cons, List.foldl_nil,
    ha, hb, Bool.false_eq_true, if_false]

/-- `stripLegalSuffix` is the identity when no legal suffix matches. -/
lemma stripLegalSuffix_eq_self {l : List Char}
    (h : ∀ s ∈ company_suffixes, endsWithL s.data l = false) :
    stripLegalSuffix l = l := by
  unfold stripLegalSuffix
  rw [List.find?_eq_none.mpr (fun s hs => by simp [h s hs])]

/-- `dropWhile` is the identity when the head fails the predicate. -/
lemma dropWhile_eq_self_head {p : Char → Bool} {l : List Char}
    (h : ∀ c, l.head? = some c → p c = false) : l.dropWhile p = l := by
  cases l with
  | nil => rfl
  | cons a t =>
    rw [List.dropWhile_cons, h a rfl]
    simp

/-- `stripL` is the identity when both ends are non-whitespace. -/
lemma stripL_eq_self {l : List Char}
    (h1 : ∀ c, l.head? = some c → Char.isWhitespace c = false)
    (h2 : ∀ c, l.getLast? = some c → Char.isWhitespace c = false) :
    stripL l = l := by
  unfold stripL
  rw [dropWhile_eq_self_head h1]
  have h3 : ∀ c, l.reverse.head? = some c → Char.isWhitespace c = false := by
    intro c hc
    rw [List.head?_reverse] at hc
    exact h2 c hc
  rw [dropWhile_eq_self_head h3]
  exact List.reverse_reverse l

/-- A string that is a space-join of nonempty, whitespace-free words of
lowercase-fixed alphanumeric-or-space characters, with no leading article
and no trailing legal suffix, is a fixed point of `normalize_company`. -/
lemma normalize_company_fixed (r : String) (ws : List (List Char))
    (hdata : r.data = joinSpaceL ws)
    (hwords : ∀ w ∈ ws, w ≠ [] ∧ ∀ c ∈ w, Char.isWhitespace c = false)
    (hchars : ∀ c ∈ joinSpaceL ws, keepAlnumSpace c = true ∧ Char.toLower c = c)
    (h1 : ∀ p ∈ company_articles, startsWithL p.data r.data = false)
    (h2 : ∀ s ∈ company_suffixes, endsWithL s.data r.data = false) :
    normalize_company r = r := by
  by_cases hws0 : ws = []
  · subst hws0
    rw [joinSpaceL_nil] at hdata
    have hr : r = "" := by
      cases r with
      | mk d =>
        simp only at hdata
        rw [hdata]
    rw [hr]
    rfl
  · have hrne : r ≠ "" := by
      intro hcon
      cases ws with
      | nil => exact hws0 rfl
      | cons w ws2 =>
        have hw := (hwords w (List.mem_cons_self _ _)).1
        have hh := joinSpaceL_head w ws2 hw
        rw [← hdata, hcon] at hh
        cases w with
        | nil => exact hw rfl
        | cons a t => simp at hh
    unfold normalize_company
    rw [if_neg hrne]
    rw [hdata]
    have hhead : ∀ c, (joinSpaceL ws).head? = some c →
        Char.isWhitespace c = false := by
      cases ws with
      | nil => exact absurd rfl hws0
      | cons w ws2 =>
        intro c hc
        rw [joinSpaceL_head w ws2 (hwords w (List.mem_cons_self _ _)).1] at hc
        exact ((hwords w (List.mem_cons_self _ _)).2 c (List.mem_of_mem_head? hc))
    have hlast : ∀ c, (joinSpaceL ws).getLast? = some c →
        Char.isWhitespace c = false := by
      intro c hc
      obtain ⟨w, hw, hwc⟩ := joinSpaceL_getLast ws (fun u hu => (hwords u hu).1) c hc
      exact (hwords w hw).2 c (List.mem_of_mem_getLast? hwc)
    rw [stripL_eq_self hhead hlast]
    rw [lowerL_eq_self (fun c hc => (hchars c hc).2)]
    rw [stripArticles_eq_self (by intro p hp; rw [← hdata]; exact h1 p hp)]
    rw [stripLegalSuffix_eq_self (by intro s hs; rw [← hdata]; exact h2 s hs)]
    rw [List.filter_eq_self.mpr (fun c hc => (hchars c hc).1)]
    have hcol : collapseWsL (joinSpaceL ws) = joinSpaceL ws := by
      unfold collapseWsL wordsL splitRuns
      rw [runsAux_joinSpaceL ws hwords]
    rw [hcol]
    exact (congrArg String.mk hdata.symm)

/-- C4.  The spec asserts unconditional idempotence of company-name
normalization; that fails (see the counterexample), but idempotence does
hold whenever the normalized form neither starts with a strippable
article nor ends with a strippable legal suffix. -/
theorem c4_amended (x : String)
    (h1 : company_articles.all
      (fun p => ! startsWithL p.data (normalize_company x).data) = true)
    (h2 : company_suffixes.all
      (fun s => ! endsWithL s.data (normalize_company x).data) = true) :
    normalize_company (normalize_company x) = normalize_company x := by
  have h1f : ∀ p ∈ company_articles,
      startsWithL p.data (normalize_company x).data = false := by
    intro p hp
    simpa using List.all_eq_true.mp h1 p hp
  have h2f : ∀ s ∈ company_suffixes,
      endsWithL s.data (normalize_company x).data = false := by
    intro s hs
    simpa using List.all_eq_true.mp h2 s hs
  by_cases hx : x = ""
  · subst hx
    rfl
  · have hdata : (normalize_company x).data =
        joinSpaceL (wordsL
          ((stripLegalSuffix (stripArticles (lowerL (stripL x.data)))).filter
            keepAlnumSpace)) := by
      unfold normalize_company
      rw [if_neg hx]
      rfl
    refine normalize_company_fixed _ _ hdata
      (fun w hw => ⟨(wordsL_sound hw).1, fun c hc => ((wordsL_sound hw).2 c hc).1⟩)
      ?_ h1f h2f
    intro c hc
    rcases mem_joinSpaceL _ c hc with rfl | ⟨w, hw, hcw⟩
    · exact ⟨by decide, by decide⟩
    · have hcl0 : c ∈ (stripLegalSuffix (stripArticles (lowerL
          (stripL x.data)))).filter keepAlnumSpace :=
        ((wordsL_sound hw).2 c hcw).2
      have hkeep := (List.mem_filter.mp hcl0).2
      have hmem2 : c ∈ lowerL (stripL x.data) :=
        mem_stripArticles (mem_stripLegalSuffix (List.mem_filter.mp hcl0).1)
      obtain ⟨d, _, hd⟩ := List.mem_map.mp
        (show c ∈ (stripL x.data).map Char.toLower from hmem2)
      exact ⟨hkeep, by rw [← hd]; exact toLower_idem d⟩

theorem c4_witness :
    (company_articles.all
      (fun p => ! startsWithL p.data (normalize_company "Hello  World, Inc.").data) = true) ∧
    (company_suffixes.all
      (fun s => ! endsWithL s.data (normalize_company "Hello  World, Inc.").data) = true) ∧
    normalize_company (normalize_company "Hello  World, Inc.") =
      normalize_company "Hello  World, Inc." :=
  ⟨by decide, by decide,
    c4_amended "Hello  World, Inc." (by decide) (by decide)⟩
